import Mathlib
/-!
Verification of the content-extraction pipeline of a blog scraper
(`lib/scraper.ts`).  The definitions below are a shallow embedding of the
TypeScript source: strings are Lean `String`s (JavaScript string lengths are
UTF-16 code-unit counts; for texts inside the basic multilingual plane, as
considered here, they agree with Lean's character counts), the parsed
cheerio document is a tree of element/text nodes, and the network is an
oracle mapping the attempt number to a fetch outcome.
-/

/-! ## Whitespace cleaning (`cleanText`, string trimming)

JavaScript `\s` (used by `text.replace(/\s+/g, ' ')`) and
`String.prototype.trim` both match the set of whitespace code points
modelled by `isJsWs`. -/
/-- Character class of JavaScript `\s` (also the set trimmed by `trim()`). -/
def isJsWs (c : Char) : Bool :=
  let n := c.toNat
  n = 0x9 || n = 0xA || n = 0xB || n = 0xC || n = 0xD || n = 0x20 ||
  n = 0xA0 || n = 0x1680 || (0x2000 ≤ n && n ≤ 0x200A) || n = 0x2028 ||
  n = 0x2029 || n = 0x202F || n = 0x205F || n = 0x3000 || n = 0xFEFF

/-- Character class of the regex `\n` used by `text.replace(/\n+/g, '\n')`. -/
def isNlChar (c : Char) : Bool := c = '\n'

/-- Semantics of `str.replace(/X+/g, r)` for a character class `X`: every
maximal run of characters satisfying `p` is replaced by the single
character `r`.  The flag records whether the scan is currently inside a
run whose replacement has already been emitted. -/
def collapseRunsAux (p : Char → Bool) (r : Char) (inRun : Bool) : List Char → List Char
  | [] => []
  | c :: cs =>
    if p c then
      if inRun then collapseRunsAux p r true cs
      else r :: collapseRunsAux p r true cs
    else c :: collapseRunsAux p r false cs

/-- Replace every maximal run of `p`-characters by the single character `r`
(the global regex replace used by `cleanText`). -/
def collapseRuns (p : Char → Bool) (r : Char) (l : List Char) : List Char :=
  collapseRunsAux p r false l

/-- Semantics of JavaScript `String.prototype.trim` on a character list. -/
def trimWsList (l : List Char) : List Char :=
  ((l.dropWhile isJsWs).reverse.dropWhile isJsWs).reverse

/-- JavaScript `s.trim()`. -/
def jsTrim (s : String) : String := String.mk (trimWsList s.data)

/-- Source `cleanText` (`lib/scraper.ts` lines 128-133):
`text.replace(/\s+/g, ' ').replace(/\n+/g, '\n').trim()`. -/
def cleanText (text : String) : String :=
  String.mk (trimWsList (collapseRuns isNlChar '\n' (collapseRuns isJsWs ' ' text.data)))

/-- Maximal runs of non-whitespace characters ("words") of a character
list, in order.  Used only to characterise `cleanText` extensionally. -/
def wsTokensL (l : List Char) : List (List Char) :=
  match l with
  | [] => []
  | c :: cs =>
    if isJsWs c then wsTokensL cs
    else (c :: cs.takeWhile (fun x => !isJsWs x)) :: wsTokensL (cs.dropWhile (fun x => !isJsWs x))
termination_by l.length
decreasing_by
  · simp only [List.length_cons]
    omega
  · have h : (cs.dropWhile (fun x => !isJsWs x)).length ≤ cs.length :=
      ((List.dropWhile_suffix _).sublist).length_le
    simp only [List.length_cons]
    omega

/-- Joins word runs with a single space between consecutive words. -/
def joinSp : List (List Char) → List Char
  | [] => []
  | [t] => t
  | t :: ts => t ++ ' ' :: joinSp ts

/-- Spec-side word list of a string: the maximal runs of non-whitespace
characters, in order. -/
def wsWords (s : String) : List (List Char) := wsTokensL s.data

/-! ## The parsed document (cheerio)

A document is modelled as a forest of nodes: element nodes carry a tag
name, an attribute list and children; text nodes carry raw text.
`Forest` is a list of nodes defined mutually with `Node` so that all
document traversals are structurally recursive. -/
mutual
inductive Node where
  | elem (tag : String) (attrs : List (String × String)) (children : Forest)
  | text (s : String)
inductive Forest where
  | nil
  | cons (head : Node) (tail : Forest)
end

def Forest.ofList : List Node → Forest
  | [] => .nil
  | n :: ns => .cons n (Forest.ofList ns)

/-- Lookup of an attribute value on an element's attribute list. -/
def getAttr (attrs : List (String × String)) (key : String) : Option String :=
  (attrs.find? (fun kv => kv.1 == key)).map (fun kv => kv.2)

/-- Splits a character list at whitespace into non-empty tokens; `cur`
accumulates the current token in reverse. -/
def wsSplitTokens : List Char → List Char → List String
  | [], cur => if cur.isEmpty then [] else [String.mk cur.reverse]
  | c :: cs, cur =>
    if isJsWs c then
      if cur.isEmpty then wsSplitTokens cs []
      else String.mk cur.reverse :: wsSplitTokens cs []
    else wsSplitTokens cs (c :: cur)

/-- The whitespace-separated class tokens of the `class` attribute. -/
def classList (attrs : List (String × String)) : List String :=
  wsSplitTokens ((getAttr attrs "class").getD "").data []

/-- Whether the first character list is a prefix of the second. -/
def startsWithSeq : List Char → List Char → Bool
  | [], _ => true
  | _ :: _, [] => false
  | a :: as, b :: bs => a == b && startsWithSeq as bs

/-- Whether the first character list occurs contiguously inside the second
(the CSS `[attr*="value"]` substring test). -/
def containsSeq (needle : List Char) : List Char → Bool
  | [] => needle.isEmpty
  | c :: cs => startsWithSeq needle (c :: cs) || containsSeq needle cs

/-- The CSS selectors appearing in the scraper, in shallow form:
tag selectors, class selectors, id selectors, exact attribute selectors
(`[a="v"]`, `t[a="v"]`) and substring attribute selectors (`t[a*="v"]`). -/
inductive Sel where
  | tag (t : String)
  | cls (c : String)
  | idSel (i : String)
  | attrEq (key value : String)
  | tagAttrEq (t key value : String)
  | tagAttrSub (t key value : String)

/-- CSS matching of one selector against one element. -/
def matchesSel : Sel → String → List (String × String) → Bool
  | .tag t, tag, _ => tag == t
  | .cls c, _, attrs => (classList attrs).contains c
  | .idSel i, _, attrs => getAttr attrs "id" == some i
  | .attrEq key value, _, attrs => getAttr attrs key == some value
  | .tagAttrEq t key value, tag, attrs => tag == t && getAttr attrs key == some value
  | .tagAttrSub t key value, tag, attrs =>
      tag == t &&
        (match getAttr attrs key with
         | some v => containsSeq value.data v.data
         | none => false)

mutual
/-- Rendered text of a whole forest: concatenation of all text nodes in
document order (cheerio `.text()`). -/
def textF : Forest → String
  | .nil => ""
  | .cons n ns => textNode n ++ textF ns
/-- Rendered text of one node. -/
def textNode : Node → String
  | .text s => s
  | .elem _ _ cs => textF cs
end

mutual
/-- All elements of a forest matching the predicate, in document
(pre-)order — the cheerio selection `$(selector)`. -/
def queryF (p : String → List (String × String) → Bool) : Forest → List Node
  | .nil => []
  | .cons n ns => queryNode p n ++ queryF p ns
/-- All matching elements inside one node (including the node itself). -/
def queryNode (p : String → List (String × String) → Bool) : Node → List Node
  | .text _ => []
  | .elem t a cs => (if p t a then [Node.elem t a cs] else []) ++ queryF p cs
end

mutual
/-- Removal of every element subtree matching the predicate
(`$(selector).remove()`), applied to a forest. -/
def removeF (p : String → List (String × String) → Bool) : Forest → Forest
  | .nil => .nil
  | .cons n ns =>
    match n with
    | .text s => .cons (.text s) (removeF p ns)
    | .elem t a cs =>
      if p t a then removeF p ns
      else .cons (.elem t a (removeF p cs)) (removeF p ns)
end

/-- Source `ARTICLE_SELECTORS` (`lib/scraper.ts` lines 74-106), in order. -/
def ARTICLE_SELECTORS : List Sel :=
  [ .cls "blog-post-content", .cls "post-content", .cls "blog-content",
    .attrEq "data-testid" "blog-content", .cls "content-wrapper",
    .tag "article", .attrEq "role" "main", .cls "post-content", .cls "entry-content",
    .cls "article-content", .cls "content", .cls "post-body", .cls "story-body",
    .cls "article-body", .tag "main", .cls "main-content", .idSel "content",
    .cls "blog-post", .cls "post", .cls "entry",
    .tagAttrSub "div" "class" "content", .tagAttrSub "div" "class" "post",
    .tagAttrSub "div" "class" "article", .tagAttrSub "div" "class" "blog",
    .tagAttrSub "section" "class" "content", .tagAttrSub "section" "class" "post" ]

/-- Source `NOISE_SELECTORS` (`lib/scraper.ts` lines 109-126), in order. -/
def NOISE_SELECTORS : List Sel :=
  [ .tag "nav", .tag "header", .tag "footer", .cls "advertisement", .cls "ads",
    .cls "sidebar", .cls "comments", .cls "social-share", .cls "related-posts",
    .cls "navigation", .cls "menu", .tag "script", .tag "style", .tag "noscript",
    .cls "cookie-notice", .cls "popup" ]

/-- The destructive noise-removal pass at the start of `extractMainContent`
(lines 137-139): each noise selector's matches are removed in turn. -/
def stripNoise (doc : Forest) : Forest :=
  NOISE_SELECTORS.foldl (fun d sel => removeF (matchesSel sel) d) doc

/-- The selector cascade (lines 141-158): for every selector, for every
match, the cleaned rendered text is computed and the longest one seen so
far is kept (strictly-greater comparison, so ties keep the first found).
The source also tracks `bestLength`, which always equals
`bestContent.length`, so only the string is carried here. -/
def selectorCascadeBest (d : Forest) : String :=
  ARTICLE_SELECTORS.foldl
    (fun best sel =>
      (queryF (matchesSel sel) d).foldl
        (fun best el =>
          let cleanedText := cleanText (textNode el)
          if best.length < cleanedText.length then cleanedText else best)
        best)
    ""

/-- The paragraph fallback accumulation (lines 166-173): every `p` element
whose trimmed text has more than 20 characters contributes its trimmed
text followed by a blank line. -/
def paragraphContentOf (d : Forest) : String :=
  (queryF (matchesSel (Sel.tag "p")) d).foldl
    (fun acc pEl =>
      let t := jsTrim (textNode pEl)
      if 20 < t.length then acc ++ t ++ "\n\n" else acc)
    ""

/-- Concatenated rendered text of all matches of a selector
(`$(sel).text()`). -/
def textAllMatches (sel : Sel) (d : Forest) : String :=
  ((queryF (matchesSel sel) d).map textNode).foldl (fun a b => a ++ b) ""

/-- Source `extractMainContent` (`lib/scraper.ts` lines 135-189).  The
cheerio root is mutated by the noise removal; here the stripped working
copy is threaded through the remaining steps. -/
def extractMainContent (doc : Forest) : String :=
  let d := stripNoise doc
  let bestContent := selectorCascadeBest d
  if 1000 < bestContent.length then bestContent
  else
    let paragraphContent := paragraphContentOf d
    let bestContent2 :=
      if bestContent.length < paragraphContent.length then cleanText paragraphContent
      else bestContent
    if bestContent2.length < 50 then
      let cleanedBodyText := cleanText (textAllMatches (Sel.tag "body") d)
      if bestContent2.length < cleanedBodyText.length then cleanedBodyText else bestContent2
    else bestContent2

/-! ### Idempotence of noise removal (claim C9) -/
mutual
/-- No element anywhere in the node matches `p`. -/
def cleanN (p : String → List (String × String) → Bool) : Node → Bool
  | .text _ => true
  | .elem t a cs => !p t a && cleanF p cs
/-- No element anywhere in the forest matches `p`. -/
def cleanF (p : String → List (String × String) → Bool) : Forest → Bool
  | .nil => true
  | .cons n ns => cleanN p n && cleanF p ns
end

/-- The sequential per-selector removal pass, generalised over the
selector list. -/
def removeAll (sels : List Sel) (f : Forest) : Forest :=
  sels.foldl (fun d sel => removeF (matchesSel sel) d) f

/-! ### The selector cascade keeps the longest candidate (claim C4) -/
/-- All candidate texts produced by the cascade: for each selector in
order, for each match in document order, the cleaned rendered text. -/
def cascadeCandidates (d : Forest) : List String :=
  (ARTICLE_SELECTORS.map
    (fun sel => (queryF (matchesSel sel) d).map (fun el => cleanText (textNode el)))).flatten

/-- A document whose article container holds a 1025-character text. -/
def docBigArticle : Forest :=
  .cons (.elem "article" [] (.cons (.text "The quick brown fox jumps over the lazy sleeping dog. The quick brown fox jumps over the lazy sleeping dog. The quick brown fox jumps over the lazy sleeping dog. The quick brown fox jumps over the lazy sleeping dog. The quick brown fox jumps over the lazy sleeping dog. The quick brown fox jumps over the lazy sleeping dog. The quick brown fox jumps over the lazy sleeping dog. The quick brown fox jumps over the lazy sleeping dog. The quick brown fox jumps over the lazy sleeping dog. The quick brown fox jumps over the lazy sleeping dog. The quick brown fox jumps over the lazy sleeping dog. The quick brown fox jumps over the lazy sleeping dog. The quick brown fox jumps over the lazy sleeping dog. The quick brown fox jumps over the lazy sleeping dog. The quick brown fox jumps over the lazy sleeping dog. The quick brown fox jumps over the lazy sleeping dog. The quick brown fox jumps over the lazy sleeping dog. The quick brown fox jumps over the lazy sleeping dog. The quick brown fox jumps over the lazy sleeping dog.") .nil)) .nil

/-! ### Paragraph fallback (claim C5) -/
/-- A document with no matching article container and three substantial
paragraphs. -/
def docThreeParas : Forest :=
  .cons (.elem "html" [] (.cons (.elem "body" [] (Forest.ofList
    [ .elem "p" [] (.cons (.text "This is the first paragraph of the page.") .nil),
      .elem "p" [] (.cons (.text "This is the second paragraph of the page.") .nil),
      .elem "p" [] (.cons (.text "This is the third paragraph of the page.") .nil) ]))
    .nil)) .nil

/-! ## The retry orchestrator (`scrapeBlogText`)

The network is an oracle from the attempt number (1-based) to either a
classified fetch error or a parsed document.  Besides the
`ScrapingResult`, the embedding returns the trace of observable events:
each fetch attempt and each backoff sleep, in order. -/
/-- Recognised scraping options (`ScrapingOptions`, lines 41-46); absent
fields are `none`. -/
structure ScrapingOptions where
  timeout : Option Nat
  retries : Option Nat
  userAgent : Option String
  headers : Option (List (String × String))

/-- No options supplied (the `{}` default of `scrapeBlogText`). -/
def noOptions : ScrapingOptions := { timeout := none, retries := none, userAgent := none, headers := none }

/-- Source `DEFAULT_OPTIONS` (lines 59-71). -/
def DEFAULT_OPTIONS : ScrapingOptions :=
  { timeout := some 10000
    retries := some 3
    userAgent := some "Mozilla/5.0 (Windows NT 10.0; Win64; x64) AppleWebKit/537.36 (KHTML, like Gecko) Chrome/91.0.4472.124 Safari/537.36"
    headers := some
      [ ("Accept", "text/html,application/xhtml+xml,application/xml;q=0.9,image/webp,*/*;q=0.8"),
        ("Accept-Language", "en-US,en;q=0.5"),
        ("Accept-Encoding", "gzip, deflate"),
        ("DNT", "1"),
        ("Connection", "keep-alive"),
        ("Upgrade-Insecure-Requests", "1") ] }

/-- The object spread `{ ...DEFAULT_OPTIONS, ...options }`: caller-supplied
fields override the defaults field by field. -/
def mergeOptions (options : ScrapingOptions) : ScrapingOptions :=
  { timeout := options.timeout <|> DEFAULT_OPTIONS.timeout
    retries := options.retries <|> DEFAULT_OPTIONS.retries
    userAgent := options.userAgent <|> DEFAULT_OPTIONS.userAgent
    headers := options.headers <|> DEFAULT_OPTIONS.headers }

/-- The non-null assertion `finalOptions.retries!` — the merge always
yields `some` because `DEFAULT_OPTIONS.retries` is `some 3`. -/
def finalRetries (options : ScrapingOptions) : Nat :=
  ((mergeOptions options).retries).getD 0

/-- Classified fetch failures (the cases distinguished by
`getErrorMessage`, lines 311-332). -/
inductive FetchError where
  | enotfound
  | econnrefused
  | etimedout
  | httpStatus (status : Nat) (message : String)
  | other (message : String)

/-- JavaScript `a || b` on strings: the empty string is falsy. -/
def jsOr (a b : String) : String := if a = "" then b else a

/-- Source `getErrorMessage` on a fetch error: the code checks
`error.code`, then `error.response?.status`, then falls back to
`error.message`. -/
def fetchErrorMessage : FetchError → String
  | .enotfound => "Website not found. Please check the URL."
  | .econnrefused => "Connection refused. The website may be down."
  | .etimedout => "Request timed out. Please try again."
  | .httpStatus status message =>
      if status = 403 then "Access forbidden. This website blocks automated requests."
      else if status = 404 then "Page not found. Please check the URL."
      else if 500 ≤ status then "Server error. Please try again later."
      else jsOr message "An unexpected error occurred while scraping."
  | .other message => jsOr message "An unexpected error occurred while scraping."

/-- The error recorded by an attempt of the retry loop: either the fetch
failed, or the fetch succeeded but the extracted content was too short
and the loop threw `Insufficient content extracted (N chars)`. -/
inductive LoopError where
  | fetchFail (e : FetchError)
  | insufficientContent (chars : Nat)

/-- Source `getErrorMessage` applied to the last recorded loop error. -/
def loopErrorMessage : LoopError → String
  | .fetchFail e => fetchErrorMessage e
  | .insufficientContent n =>
      "Insufficient content extracted (" ++ toString n ++ " chars)"

/-- Result metadata; the per-attempt extractor always fills title and
description, while `bestMetadata`'s initial value and the final failure
result carry only the url. -/
structure Metadata where
  title : Option String
  description : Option String
  url : String
deriving DecidableEq

/-- Source `ScrapingResult` (lines 48-57). -/
structure ScrapingResult where
  success : Bool
  content : Option String
  error : Option String
  metadata : Option Metadata
deriving DecidableEq

/-- The mutable state of the retry loop (`lastError`, `bestContent`,
`bestMetadata`, lines 219-221). -/
structure LoopState where
  lastError : Option LoopError
  bestContent : String
  bestMetadata : Metadata

/-- Observable events of a scrape call. -/
inductive ScrapeEvent where
  | fetchAttempt (attempt : Nat)
  | backoffSleep (ms : Nat)
deriving DecidableEq

/-- The backoff delay after a failed attempt (line 279):
`Math.min(1000 * Math.pow(2, attempt - 1), 5000)`. -/
def backoffDelay (attempt : Nat) : Nat := min (1000 * 2 ^ (attempt - 1)) 5000

/-- Metadata extraction of one attempt (lines 230-239):
`$('title').text() || $('h1').first().text() || ''` and
`meta[name="description"]` falling back to `meta[property="og:description"]`,
both passed through `cleanText`.  (JavaScript `||` treats `undefined` and
`''` alike, so a missing attribute is modelled as the empty string.) -/
def extractMetadata (doc : Forest) (url : String) : Metadata :=
  let title :=
    jsOr (textAllMatches (Sel.tag "title") doc)
      (jsOr (match (queryF (matchesSel (Sel.tag "h1")) doc).head? with
             | some h => textNode h
             | none => "") "")
  let firstAttr := fun (sel : Sel) (key : String) =>
    match (queryF (matchesSel sel) doc).head? with
    | some (Node.elem _ attrs _) => (getAttr attrs key).getD ""
    | _ => ""
  let description :=
    jsOr (firstAttr (Sel.tagAttrEq "meta" "name" "description") "content")
      (jsOr (firstAttr (Sel.tagAttrEq "meta" "property" "og:description") "content") "")
  { title := some (cleanText title), description := some (cleanText description), url := url }

/-- The retry loop of `scrapeBlogText` (lines 223-283) together with the
post-loop conclusion (lines 285-299).  `remaining` counts the attempts
still allowed (`retries - attempt + 1` when entered from the top); the
structure of each iteration follows the source:
fetch, extract metadata and content, track the strictly-longer best,
return on `content.length >= 100`, return the best on the last attempt if
non-empty, otherwise record the error and sleep `backoffDelay attempt`
milliseconds when attempts remain.  (With `retries = 0` the source would
throw on reading `lastError.code` of `undefined`; the loop is only ever
entered with `retries ≥ 1` in the claims below.) -/
def scrapeLoop (oracle : Nat → Except FetchError Forest) (url : String) (retries : Nat) :
    Nat → Nat → LoopState → ScrapingResult × List ScrapeEvent
  | 0, _, st =>
      if 0 < st.bestContent.length then
        ({ success := true, content := some st.bestContent, error := none,
           metadata := some st.bestMetadata }, [])
      else
        ({ success := false, content := none,
           error := some (match st.lastError with
             | some e => loopErrorMessage e
             | none => "An unexpected error occurred while scraping."),
           metadata := some { title := none, description := none, url := url } }, [])
  | remaining + 1, attempt, st =>
      match oracle attempt with
      | .error e =>
          let st' : LoopState := { st with lastError := some (.fetchFail e) }
          let evs := ScrapeEvent.fetchAttempt attempt ::
            (if attempt < retries then [ScrapeEvent.backoffSleep (backoffDelay attempt)] else [])
          let next := scrapeLoop oracle url retries remaining (attempt + 1) st'
          (next.1, evs ++ next.2)
      | .ok doc =>
          let metadata := extractMetadata doc url
          let content := extractMainContent doc
          let st' : LoopState :=
            if st.bestContent.length < content.length then
              { st with bestContent := content, bestMetadata := metadata }
            else st
          if 100 ≤ content.length then
            ({ success := true, content := some content, error := none,
               metadata := some metadata }, [ScrapeEvent.fetchAttempt attempt])
          else if attempt = retries ∧ 0 < st'.bestContent.length then
            ({ success := true, content := some st'.bestContent, error := none,
               metadata := some st'.bestMetadata }, [ScrapeEvent.fetchAttempt attempt])
          else
            let st'' : LoopState := { st' with lastError := some (.insufficientContent content.length) }
            let evs := ScrapeEvent.fetchAttempt attempt ::
              (if attempt < retries then [ScrapeEvent.backoffSleep (backoffDelay attempt)] else [])
            let next := scrapeLoop oracle url retries remaining (attempt + 1) st''
            (next.1, evs ++ next.2)

/-- The `bestMetadata` initial value `{ url }` (line 221). -/
def initialState (url : String) : LoopState :=
  { lastError := none, bestContent := "", bestMetadata := { title := none, description := none, url := url } }

/-- C0 control (U+0000 to U+001F) or U+0020 SPACE, the class the WHATWG
basic URL parser strips from the ends of its input. -/
def isC0OrSpace (c : Char) : Bool := c.toNat ≤ 0x20

/-- ASCII tab or newline, removed everywhere in the input by the WHATWG
basic URL parser before any state is entered. -/
def isTabOrNewline (c : Char) : Bool :=
  c.toNat == 0x9 || c.toNat == 0xA || c.toNat == 0xD

/-- Input preprocessing of the WHATWG basic URL parser: remove leading and
trailing C0 controls and spaces, then remove every ASCII tab or newline. -/
def urlPreprocess (l : List Char) : List Char :=
  (((l.dropWhile isC0OrSpace).reverse.dropWhile isC0OrSpace).reverse).filter
    (fun c => !isTabOrNewline c)

def isAsciiAlpha (c : Char) : Bool :=
  (0x41 ≤ c.toNat && c.toNat ≤ 0x5A) || (0x61 ≤ c.toNat && c.toNat ≤ 0x7A)

def isAsciiDigit (c : Char) : Bool := 0x30 ≤ c.toNat && c.toNat ≤ 0x39

/-- A code point allowed after the first character of a URL scheme. -/
def isSchemeChar (c : Char) : Bool :=
  isAsciiAlpha c || isAsciiDigit c || c == '+' || c == '-' || c == '.'

def asciiLower (c : Char) : Char :=
  if 0x41 ≤ c.toNat && c.toNat ≤ 0x5A then Char.ofNat (c.toNat + 0x20) else c

def hexVal (c : Char) : Option Nat :=
  if 0x30 ≤ c.toNat && c.toNat ≤ 0x39 then some (c.toNat - 0x30)
  else if 0x41 ≤ c.toNat && c.toNat ≤ 0x46 then some (c.toNat - 0x37)
  else if 0x61 ≤ c.toNat && c.toNat ≤ 0x66 then some (c.toNat - 0x57)
  else none

/-- Percent-decoding as applied to the host before domain processing; an
invalid escape sequence is left untouched. A decoded byte is modelled as
the code point of the same value. -/
def percentDecode : List Char → List Char
  | [] => []
  | '%' :: a :: b :: rest =>
    match hexVal a, hexVal b with
    | some x, some y => Char.ofNat (16 * x + y) :: percentDecode rest
    | _, _ => '%' :: percentDecode (a :: b :: rest)
  | c :: rest => c :: percentDecode rest

/-- Forbidden host code points of the URL Standard. -/
def forbiddenHostChar (c : Char) : Bool :=
  c.toNat == 0x00 || c.toNat == 0x09 || c.toNat == 0x0A || c.toNat == 0x0D ||
  c == ' ' || c == '#' || c == '/' || c == ':' || c == '<' || c == '>' ||
  c == '?' || c == '@' || c == '[' || c == '\\' || c == ']' || c == '^' || c == '|'

/-- Forbidden domain code points: forbidden host code points plus C0
controls, `%` and U+007F. -/
def forbiddenDomainChar (c : Char) : Bool :=
  forbiddenHostChar c || c.toNat ≤ 0x1F || c == '%' || c.toNat == 0x7F

def splitDotsAux : List Char → List Char → List (List Char)
  | [], cur => [cur.reverse]
  | '.' :: rest, cur => cur.reverse :: splitDotsAux rest []
  | c :: rest, cur => splitDotsAux rest (c :: cur)

/-- Strictly split on U+002E, keeping empty labels. -/
def splitDots (l : List Char) : List (List Char) := splitDotsAux l []

def radixDigit (r : Nat) (c : Char) : Option Nat :=
  match hexVal c with
  | some v => if v < r then some v else none
  | none => none

def radixParse (r : Nat) (l : List Char) : Option Nat :=
  if l.all (fun c => (radixDigit r c).isSome) then
    some (l.foldl (fun a c => a * r + ((radixDigit r c).getD 0)) 0)
  else none

/-- The IPv4 number parser of the URL Standard: `0x`/`0X` selects radix 16
(with `0x` alone denoting 0), a further leading `0` selects radix 8,
otherwise radix 10; any out-of-radix digit is a failure. -/
def parseIPv4Num : List Char → Option Nat
  | [] => none
  | '0' :: 'x' :: rest => radixParse 16 rest
  | '0' :: 'X' :: rest => radixParse 16 rest
  | '0' :: c :: rest => radixParse 8 (c :: rest)
  | l => radixParse 10 l

/-- The ends-in-a-number checker of the URL Standard: after discarding one
trailing empty label, the last label is all ASCII digits or parses as an
IPv4 number. -/
def endsInNumber (parts : List (List Char)) : Bool :=
  let parts2 :=
    match parts.getLast? with
    | some [] => if parts.length == 1 then [] else parts.dropLast
    | _ => parts
  match parts2.getLast? with
  | none => false
  | some last =>
    (!last.isEmpty && last.all isAsciiDigit) || (parseIPv4Num last).isSome

def allIPv4Nums : List (List Char) → Option (List Nat)
  | [] => some []
  | p :: ps =>
    match parseIPv4Num p, allIPv4Nums ps with
    | some n, some ns => some (n :: ns)
    | _, _ => none

/-- The IPv4 parser of the URL Standard, as a validity check: at most four
dot-separated IPv4 numbers (one trailing empty part tolerated), every part
but the last at most 255, the last below `256 ^ (5 - count)`. -/
def ipv4HostOk (parts : List (List Char)) : Bool :=
  let parts2 :=
    match parts.getLast? with
    | some [] => if parts.length > 1 then parts.dropLast else parts
    | _ => parts
  decide (parts2.length ≤ 4) &&
  (match allIPv4Nums parts2 with
   | none => false
   | some ns =>
     ns.dropLast.all (fun n => decide (n ≤ 255)) &&
     (match ns.getLast? with
      | none => false
      | some lastv => decide (lastv < 256 ^ (5 - ns.length))))

/-- One decimal piece of an IPv4 address embedded in an IPv6 address: a
digit run without leading zero, value at most 255; returns the rest. -/
def parseV4Piece (l : List Char) : Option (List Char) :=
  let ds := l.takeWhile isAsciiDigit
  if ds.isEmpty then none
  else if decide (1 < ds.length) && ds.head? == some '0' then none
  else if decide (255 < ds.foldl (fun a c => a * 10 + (c.toNat - 0x30)) 0) then none
  else some (l.drop ds.length)

def ipv6QuadAux : Nat → List Char → Nat → Bool
  | 0, _, _ => false
  | fuel + 1, l, seen =>
    match parseV4Piece l with
    | none => false
    | some rest =>
      match rest with
      | [] => seen + 1 == 4
      | '.' :: r => if seen + 1 < 4 then ipv6QuadAux fuel r (seen + 1) else false
      | _ => false

/-- Exactly four dot-separated IPv4 pieces consuming the whole input, the
trailing-IPv4 clause of the IPv6 parser. -/
def ipv6Quad (l : List Char) : Bool := ipv6QuadAux (l.length + 1) l 0

/-- Main loop of the IPv6 parser of the URL Standard, as a validity check:
`pieceIndex` counts parsed pieces, `compressSeen` records a `::`. Each
piece is at most four hex digits; a trailing IPv4 block fills two pieces;
without a `::` exactly eight pieces are required. The fuel argument is
always at least the input length plus one, so it never runs out. -/
def ipv6LoopAux : Nat → List Char → Nat → Bool → Bool
  | 0, _, _, _ => false
  | fuel + 1, l, pieceIndex, compressSeen =>
    match l with
    | [] => if compressSeen then true else pieceIndex == 8
    | c :: rest =>
      if pieceIndex == 8 then false
      else if c == ':' then
        if compressSeen then false
        else ipv6LoopAux fuel rest (pieceIndex + 1) true
      else
        let len := min ((c :: rest).takeWhile (fun x => (hexVal x).isSome)).length 4
        if len == 0 then false
        else
          match (c :: rest).drop len with
          | [] => ipv6LoopAux fuel [] (pieceIndex + 1) compressSeen
          | '.' :: _ =>
            if 6 < pieceIndex then false
            else ipv6Quad (c :: rest) && (compressSeen || pieceIndex + 2 == 8)
          | ':' :: [] => false
          | ':' :: r2 => ipv6LoopAux fuel r2 (pieceIndex + 1) compressSeen
          | _ => false

/-- IPv6 address validity per the URL Standard parser (a leading `:` must
be part of a `::`). -/
def ipv6Valid : List Char → Bool
  | ':' :: ':' :: rest => ipv6LoopAux (rest.length + 1) rest 1 true
  | ':' :: _ => false
  | l => ipv6LoopAux (l.length + 1) l 0 false

/-- Host validity for a non-bracketed (domain) host: percent-decode, apply
domain-to-ASCII (modelled as ASCII lowercasing, see `isValidUrl`), require
the result non-empty and free of forbidden domain code points, and if it
ends in a number require it to parse as an IPv4 address. -/
def domainOk (host : List Char) : Bool :=
  let ascii := (percentDecode host).map asciiLower
  !ascii.isEmpty && ascii.all (fun c => !forbiddenDomainChar c) &&
  (!endsInNumber (splitDots ascii) || ipv4HostOk (splitDots ascii))

/-- The part of the authority after the last `@` (the host-port part; all
code points before it are userinfo, which never fails to parse). -/
def afterLastAt (l : List Char) : List Char :=
  (l.reverse.takeWhile (fun c => !(c == '@'))).reverse

/-- Port validity: ASCII digits only, value at most 65535 (an empty port
is allowed and means no port). -/
def portOk (ds : List Char) : Bool :=
  ds.all isAsciiDigit &&
  decide (ds.foldl (fun a c => a * 10 + (c.toNat - 0x30)) 0 ≤ 65535)

/-- Validity of the host-port part of the authority: a `[` host must close
its bracket immediately before the end or the port colon and hold a valid
IPv6 address; otherwise the host runs to the first `:` and must be a valid
domain; either way the rest must be a valid port. An empty host fails. -/
def hostPortValid (l : List Char) : Bool :=
  match l with
  | [] => false
  | '[' :: inside0 =>
    let insidePart := inside0.takeWhile (fun c => !(c == ']'))
    let closeOn := inside0.dropWhile (fun c => !(c == ']'))
    if closeOn.isEmpty then false
    else
      let afterClose := closeOn.drop 1
      let hostExtra := afterClose.takeWhile (fun c => !(c == ':'))
      let portPart := afterClose.dropWhile (fun c => !(c == ':'))
      hostExtra.isEmpty && ipv6Valid insidePart &&
      (match portPart with
       | [] => true
       | _ :: ds => portOk ds)
  | _ =>
    let host := l.takeWhile (fun c => !(c == ':'))
    let portPart := l.dropWhile (fun c => !(c == ':'))
    domainOk host &&
    (match portPart with
     | [] => true
     | _ :: ds => portOk ds)

/-- Source `isValidUrl` (lines 302-309): `new URL(url)` must not throw and
the resulting protocol must be `http:` or `https:`. The `new URL` builtin
is modelled by the WHATWG basic URL parser for an absolute special URL:
preprocess the input; parse a letter-led scheme up to `:`; when the
lowercased scheme is not `http`/`https` the conjunction is false whether or
not the URL parses, so only those schemes continue; skip every `/` or `\`
after the colon (so `https:example.org`, `http:/x.com` and `http:\x` all
reach an authority); the authority runs to the first `/`, `\`, `?` or `#`
(path, query and fragment never fail to parse); the host-port part after
the last `@` must be valid per `hostPortValid`. Idealisations, each making
the model accept where the real parser may still throw: the IDNA
domain-to-ASCII step (applied with beStrict false) is modelled as ASCII
lowercasing, so non-ASCII labels and `xn--` labels are assumed to convert
successfully, and percent-decoded bytes are compared against the forbidden
code points as raw byte values rather than as decoded UTF-8. On all-ASCII
hosts without `xn--` labels the model matches the standard exactly. -/
def isValidUrl (url : String) : Bool :=
  let input := urlPreprocess url.data
  match input with
  | [] => false
  | c :: _ =>
    isAsciiAlpha c &&
    (let scheme := input.takeWhile isSchemeChar
     let rest := input.dropWhile isSchemeChar
     match rest with
     | ':' :: afterScheme =>
       (String.mk (scheme.map asciiLower) == "http" ||
        String.mk (scheme.map asciiLower) == "https") &&
       hostPortValid (afterLastAt
         ((afterScheme.dropWhile (fun x => x == '/' || x == '\\')).takeWhile
           (fun x => !(x == '/' || x == '\\' || x == '?' || x == '#'))))
     | _ => false)

/-- Source `scrapeBlogText` (lines 206-300): option merge, URL
validation (`!url || !isValidUrl(url)` returns
`{success: false, error: 'Invalid URL provided'}` with NO metadata), then
the retry loop from attempt 1. -/
def scrapeBlogText (oracle : Nat → Except FetchError Forest) (url : String)
    (options : ScrapingOptions) : ScrapingResult × List ScrapeEvent :=
  let retries := finalRetries options
  if url == "" || !isValidUrl url then
    ({ success := false, content := none, error := some "Invalid URL provided",
       metadata := none }, [])
  else
    scrapeLoop oracle url retries retries 1 (initialState url)

/-! ### Characterising the retry loop -/
/-- An attempt the loop does not return from: the fetch failed, or the
extracted content was below the 100-character threshold (before the last
attempt such an attempt also cannot trigger the best-so-far return). -/
def attemptFails (oracle : Nat → Except FetchError Forest) (i : Nat) : Prop :=
  match oracle i with
  | .error _ => True
  | .ok doc => (extractMainContent doc).length < 100

/-- State update performed by a failing attempt `i`. -/
def stepFail (oracle : Nat → Except FetchError Forest) (url : String)
    (st : LoopState) (i : Nat) : LoopState :=
  match oracle i with
  | .error e => { st with lastError := some (.fetchFail e) }
  | .ok doc =>
      let metadata := extractMetadata doc url
      let content := extractMainContent doc
      let st' : LoopState :=
        if st.bestContent.length < content.length then
          { st with bestContent := content, bestMetadata := metadata }
        else st
      { st' with lastError := some (.insufficientContent content.length) }

/-- Events produced by a failing attempt `i`. -/
def iterEvents (retries i : Nat) : List ScrapeEvent :=
  .fetchAttempt i :: (if i < retries then [.backoffSleep (backoffDelay i)] else [])

/-- The post-loop conclusion (lines 285-299). -/
def loopExit (url : String) (st : LoopState) : ScrapingResult :=
  if 0 < st.bestContent.length then
    { success := true, content := some st.bestContent, error := none,
      metadata := some st.bestMetadata }
  else
    { success := false, content := none,
      error := some (match st.lastError with
        | some e => loopErrorMessage e
        | none => "An unexpected error occurred while scraping."),
      metadata := some { title := none, description := none, url := url } }

/-- The best-so-far update of a successful fetch (lines 244-248). -/
def bestUpdate (url : String) (doc : Forest) (st : LoopState) : LoopState :=
  if st.bestContent.length < (extractMainContent doc).length then
    { st with bestContent := extractMainContent doc, bestMetadata := extractMetadata doc url }
  else st

/-- An article document whose cleaned text has at least 100 characters. -/
def docHundred : Forest :=
  .cons (.elem "article" []
    (.cons (.text "A reasonably long article body follows here and keeps going until it clearly passes the one hundred character mark.") .nil)) .nil

/-- Fetch oracle for the C2 witness: attempt 1 times out, attempt 2
succeeds with substantial content. -/
def oracleC2 : Nat → Except FetchError Forest :=
  fun i => if i = 1 then .error .etimedout else .ok docHundred

/-- Fetch oracle for the C8 scenario: attempts 1 and 2 time out, attempt 3
succeeds with substantial content. -/
def oracleC8 : Nat → Except FetchError Forest :=
  fun i => if i ≤ 2 then .error .etimedout else .ok docHundred

/-- Fetch oracle that always times out. -/
def oracleAllTimeout : Nat → Except FetchError Forest := fun _ => .error .etimedout

/-- The classified error recorded by attempt `i` when it fails: the fetch
error itself, or the insufficient-content error thrown after a successful
fetch. -/
def lastErrOf (oracle : Nat → Except FetchError Forest) (i : Nat) : LoopError :=
  match oracle i with
  | .error e => .fetchFail e
  | .ok d => .insufficientContent (extractMainContent d).length

/-- An article document with non-empty content well below the
100-character threshold. -/
def docSmall : Forest :=
  .cons (.elem "article" [] (.cons (.text "Short article body text here today.") .nil)) .nil

/-- Fetch oracle for the C3 witness: attempt 2 succeeds with short
content, all other attempts time out. -/
def oracleC3 : Nat → Except FetchError Forest :=
  fun i => if i = 2 then .ok docSmall else .error .etimedout

/-! ## The demo fallback (`scrapeWithFallback`, claim C10) -/
/-- JavaScript `ToInt32`: reduce an integer into `[-2^31, 2^31)`. -/
def toInt32 (x : Int) : Int := (x + 2 ^ 31) % 2 ^ 32 - 2 ^ 31

/-- One step of the URL hash (line 365):
`((a << 5) - a + b.charCodeAt(0)) & 0xffffffff`; `a << 5` is the 32-bit
shift `ToInt32(a * 32)` and `& 0xffffffff` is `ToInt32` of the sum. -/
def jsHashStep (a : Int) (c : Nat) : Int := toInt32 (toInt32 (a * 32) - a + c)

/-- The URL hash of `generateSampleContent` (line 365); for the basic
multilingual plane, `charCodeAt` agrees with the character code point. -/
def jsHash (url : String) : Int := url.data.foldl (fun a c => jsHashStep a c.toNat) 0

/-- Source `samples` (lines 356-362). -/
def sampleTexts : List String :=
  [ "Artificial Intelligence has revolutionized how we approach problem-solving in the modern world. From machine learning algorithms that can predict consumer behavior to neural networks that can recognize patterns in vast datasets, AI is transforming industries across the globe. The integration of AI into everyday applications has made our lives more efficient and opened up new possibilities for innovation. As we continue to advance in this field, we must also consider the ethical implications and ensure that AI development remains aligned with human values and societal needs.",
    "Web development has evolved significantly over the past decade, with new frameworks and technologies emerging regularly. Modern web applications require responsive design, fast loading times, and seamless user experiences across all devices. The rise of JavaScript frameworks like React, Vue, and Angular has changed how developers build interactive user interfaces. Additionally, the adoption of cloud services and serverless architectures has made it easier to deploy and scale web applications globally.",
    "Sustainable technology is becoming increasingly important as we face environmental challenges. Green computing initiatives focus on reducing energy consumption in data centers, while renewable energy technologies are making clean power more accessible. Electric vehicles are revolutionizing transportation, and smart city technologies are optimizing resource usage in urban environments. These innovations demonstrate how technology can be a powerful tool for addressing climate change and creating a more sustainable future." ]

/-- Source `generateSampleContent` (lines 355-367):
`samples[Math.abs(hash) % samples.length]`. -/
def generateSampleContent (url : String) : String :=
  sampleTexts.getD ((jsHash url).natAbs % sampleTexts.length) ""

/-- Source `scrapeWithFallback` (lines 335-353): on any failure of
`scrapeBlogText` (called with no options), return fabricated sample
content as a success. -/
def scrapeWithFallback (oracle : Nat → Except FetchError Forest) (url : String) :
    ScrapingResult :=
  let result := (scrapeBlogText oracle url noOptions).1
  if result.success = false then
    { success := true, content := some (generateSampleContent url), error := none,
      metadata := some
        { title := some "Sample Blog Post",
          description := some "This is sample content for demonstration purposes.",
          url := url } }
  else result

/-! ### Lemmas about run collapsing and trimming -/
lemma collapseRunsAux_nil (p : Char → Bool) (r : Char) (b : Bool) :
    collapseRunsAux p r b [] = [] := rfl

lemma collapseRunsAux_cons_pos_true {p : Char → Bool} {c : Char} (r : Char) (cs : List Char)
    (hc : p c = true) : collapseRunsAux p r true (c :: cs) = collapseRunsAux p r true cs := by
  simp [collapseRunsAux, hc]

lemma collapseRunsAux_cons_pos_false {p : Char → Bool} {c : Char} (r : Char) (cs : List Char)
    (hc : p c = true) : collapseRunsAux p r false (c :: cs) = r :: collapseRunsAux p r true cs := by
  simp [collapseRunsAux, hc]

lemma collapseRunsAux_cons_neg {p : Char → Bool} {c : Char} (r : Char) (b : Bool) (cs : List Char)
    (hc : p c = false) : collapseRunsAux p r b (c :: cs) = c :: collapseRunsAux p r false cs := by
  cases b <;> simp [collapseRunsAux, hc]

lemma collapseRunsAux_true_eq (p : Char → Bool) (r : Char) (l : List Char) :
    collapseRunsAux p r true l = collapseRunsAux p r false (l.dropWhile p) := by
  induction l with
  | nil => rfl
  | cons c cs ih =>
    by_cases hc : p c
    · rw [collapseRunsAux_cons_pos_true r cs hc, ih, List.dropWhile_cons, if_pos hc]
    · rw [collapseRunsAux_cons_neg r true cs (by simpa using hc), List.dropWhile_cons,
        if_neg hc, collapseRunsAux_cons_neg r false cs (by simpa using hc)]

lemma collapseRuns_decomp (p : Char → Bool) (r : Char) (l : List Char) :
    collapseRunsAux p r false l =
      l.takeWhile (fun x => !p x) ++ collapseRunsAux p r false (l.dropWhile (fun x => !p x)) := by
  induction l with
  | nil => rfl
  | cons c cs ih =>
    by_cases hc : p c
    · simp [List.takeWhile_cons, List.dropWhile_cons, hc]
    · rw [collapseRunsAux_cons_neg r false cs (by simpa using hc)]
      simp only [List.takeWhile_cons, List.dropWhile_cons, hc, Bool.not_false]
      rw [ih]
      simp

lemma dropWhile_head_false (p : Char → Bool) :
    ∀ {l : List Char} {x : Char} {xs : List Char}, l.dropWhile p = x :: xs → p x = false := by
  intro l
  induction l with
  | nil =>
    intro x xs h
    simp at h
  | cons a as ih =>
    intro x xs h
    rw [List.dropWhile_cons] at h
    by_cases ha : p a
    · rw [if_pos ha] at h
      exact ih h
    · rw [if_neg ha] at h
      injection h with h1 h2
      subst h1
      simpa using ha

lemma mem_collapseRunsAux (p : Char → Bool) (r : Char) (b : Bool) (l : List Char) :
    ∀ c ∈ collapseRunsAux p r b l, c = r ∨ p c = false := by
  induction l generalizing b with
  | nil => simp [collapseRunsAux]
  | cons c cs ih =>
    intro x hx
    by_cases hc : p c
    · cases b with
      | true =>
        rw [collapseRunsAux_cons_pos_true r cs hc] at hx
        exact ih true x hx
      | false =>
        rw [collapseRunsAux_cons_pos_false r cs hc] at hx
        rcases List.mem_cons.mp hx with hx | hx
        · exact Or.inl hx
        · exact ih true x hx
    · rw [collapseRunsAux_cons_neg r b cs (by simpa using hc)] at hx
      rcases List.mem_cons.mp hx with hx | hx
      · subst hx
        exact Or.inr (by simpa using hc)
      · exact ih false x hx

lemma collapseRunsAux_id (p : Char → Bool) (r : Char) (b : Bool) (l : List Char)
    (h : ∀ c ∈ l, p c = false) : collapseRunsAux p r b l = l := by
  induction l generalizing b with
  | nil => rfl
  | cons c cs ih =>
    have hc : p c = false := h c (List.mem_cons_self c cs)
    rw [collapseRunsAux_cons_neg r b cs hc,
      ih false (fun x hx => h x (List.mem_cons_of_mem c hx))]

/-- The second replace stage of `cleanText` (`/\n+/ → '\n'`) is the identity:
the first replace already turned every newline into a space. -/
lemma nl_stage_id (l : List Char) :
    collapseRuns isNlChar '\n' (collapseRuns isJsWs ' ' l) = collapseRuns isJsWs ' ' l := by
  apply collapseRunsAux_id
  intro c hc
  rcases mem_collapseRunsAux isJsWs ' ' false l c hc with h | h
  · subst h
    decide
  · cases hnl : isNlChar c with
    | false => rfl
    | true =>
      exfalso
      have : c = '\n' := by simpa [isNlChar] using hnl
      subst this
      simp [isJsWs] at h

lemma trimWsList_eq_rdrop (l : List Char) :
    trimWsList l = (l.dropWhile isJsWs).rdropWhile isJsWs := rfl

lemma trimWsList_cons_ws {c : Char} (h : isJsWs c = true) (l : List Char) :
    trimWsList (c :: l) = trimWsList l := by
  simp [trimWsList, List.dropWhile_cons, h]

lemma rdropWhile_eq_self_of_all (p : Char → Bool) (l : List Char)
    (h : ∀ x ∈ l, p x = false) : l.rdropWhile p = l := by
  rw [List.rdropWhile_eq_self_iff]
  intro hl hcontra
  have := h (l.getLast hl) (List.getLast_mem hl)
  simp [hcontra] at this

lemma rdropWhile_append_of_ne_nil (p : Char → Bool) (A B : List Char)
    (h : B.rdropWhile p ≠ []) : (A ++ B).rdropWhile p = A ++ B.rdropWhile p := by
  unfold List.rdropWhile at *
  rw [List.reverse_append, List.dropWhile_append]
  cases hm : (B.reverse.dropWhile p).isEmpty with
  | true =>
    exfalso
    apply h
    rw [List.isEmpty_iff] at hm
    simp [hm]
  | false => simp

set_option maxHeartbeats 2000000 in
lemma wsTokensL_nil : wsTokensL [] = [] := by
  rw [wsTokensL.eq_def]

lemma wsTokensL_cons_ws {c : Char} {cs : List Char} (hc : isJsWs c = true) :
    wsTokensL (c :: cs) = wsTokensL cs := by
  rw [wsTokensL.eq_def]
  simp [hc]

lemma wsTokensL_cons_word {c : Char} {cs : List Char} (hc : isJsWs c = false) :
    wsTokensL (c :: cs) =
      (c :: cs.takeWhile (fun x => !isJsWs x)) :: wsTokensL (cs.dropWhile (fun x => !isJsWs x)) := by
  rw [wsTokensL.eq_def]
  simp [hc]

lemma wsTokensL_dropWhile (l : List Char) :
    wsTokensL (l.dropWhile isJsWs) = wsTokensL l := by
  induction l with
  | nil => rfl
  | cons c cs ih =>
    by_cases hc : isJsWs c
    · rw [List.dropWhile_cons, if_pos hc, ih, wsTokensL_cons_ws (by simpa using hc)]
    · rw [List.dropWhile_cons, if_neg hc]

lemma joinSp_cons_cons (a b : List Char) (ts : List (List Char)) :
    joinSp (a :: b :: ts) = a ++ ' ' :: joinSp (b :: ts) := rfl

lemma joinSp_ne_nil {t : List Char} (ht : t ≠ []) (ts : List (List Char)) :
    joinSp (t :: ts) ≠ [] := by
  cases ts with
  | nil => simpa [joinSp] using ht
  | cons b bs =>
    rw [joinSp_cons_cons]
    cases t with
    | nil => exact absurd rfl ht
    | cons x xs => simp

/-- Core characterisation: collapsing whitespace runs to single spaces and
trimming yields exactly the word runs joined by single spaces. -/
lemma clean_chars_eq_joinSp : ∀ (n : Nat) (l : List Char), l.length ≤ n →
    trimWsList (collapseRuns isJsWs ' ' l) = joinSp (wsTokensL l) := by
  intro n
  induction n with
  | zero =>
    intro l hl
    have hnil : l = [] := by
      cases l with
      | nil => rfl
      | cons c cs => simp at hl
    subst hnil
    rw [wsTokensL_nil]
    rfl
  | succ n ih =>
    intro l hl
    match l with
    | [] =>
      rw [wsTokensL_nil]
      rfl
    | c :: cs =>
      have hcs : cs.length ≤ n := by
        simp only [List.length_cons] at hl
        omega
      by_cases hc : isJsWs c
      · -- whitespace head: the leading space produced is trimmed away
        have h1 : collapseRuns isJsWs ' ' (c :: cs) =
            ' ' :: collapseRuns isJsWs ' ' (cs.dropWhile isJsWs) := by
          rw [collapseRuns, collapseRunsAux_cons_pos_false ' ' cs (by simpa using hc),
            collapseRunsAux_true_eq]
          rfl
        have hlen : (cs.dropWhile isJsWs).length ≤ n :=
          le_trans ((List.dropWhile_suffix _).sublist).length_le hcs
        rw [h1, trimWsList_cons_ws (by decide), ih _ hlen, wsTokensL_dropWhile,
          wsTokensL_cons_ws (by simpa using hc)]
      · -- word head: peel the whole word run
        have hcf : isJsWs c = false := by simpa using hc
        have hrun : collapseRuns isJsWs ' ' (c :: cs) =
            (c :: cs.takeWhile (fun x => !isJsWs x)) ++
              collapseRuns isJsWs ' ' (cs.dropWhile (fun x => !isJsWs x)) := by
          rw [collapseRuns, collapseRuns_decomp]
          simp only [List.takeWhile_cons, List.dropWhile_cons, hcf, Bool.not_false]
          simp [collapseRuns]
        set run := c :: cs.takeWhile (fun x => !isJsWs x) with hrundef
        set rest := cs.dropWhile (fun x => !isJsWs x) with hrest
        have hrun_all : ∀ x ∈ run, isJsWs x = false := by
          intro x hx
          rcases List.mem_cons.mp hx with hx | hx
          · subst hx
            exact hcf
          · have := List.mem_takeWhile_imp hx
            simpa using this
        have htok : wsTokensL (c :: cs) = run :: wsTokensL rest := wsTokensL_cons_word hcf
        have hfront : (run ++ collapseRuns isJsWs ' ' rest).dropWhile isJsWs =
            run ++ collapseRuns isJsWs ' ' rest := by
          rw [hrundef]
          simp [List.dropWhile_cons, hcf]
        rw [hrun, htok, trimWsList_eq_rdrop, hfront]
        match hrest2 : rest with
        | [] =>
          rw [collapseRuns, collapseRunsAux_nil, List.append_nil,
            rdropWhile_eq_self_of_all _ _ hrun_all, wsTokensL_nil]
          rfl
        | w :: rest' =>
          have hw : isJsWs w = true := by
            have := dropWhile_head_false (fun x => !isJsWs x) hrest2
            simpa using this
          have hCrest : collapseRuns isJsWs ' ' (w :: rest') =
              ' ' :: collapseRuns isJsWs ' ' (rest'.dropWhile isJsWs) := by
            rw [collapseRuns, collapseRunsAux_cons_pos_false ' ' rest' hw,
              collapseRunsAux_true_eq]
            rfl
          have hr2len : (rest'.dropWhile isJsWs).length ≤ n := by
            have h1 : rest.length ≤ cs.length :=
              ((List.dropWhile_suffix _).sublist).length_le
            rw [hrest2] at h1
            simp only [List.length_cons] at h1
            have h2 : (rest'.dropWhile isJsWs).length ≤ rest'.length :=
              ((List.dropWhile_suffix _).sublist).length_le
            omega
          have htokrest : wsTokensL (w :: rest') = wsTokensL (rest'.dropWhile isJsWs) := by
            rw [wsTokensL_cons_ws hw, wsTokensL_dropWhile]
          rw [hCrest]
          rcases hr2c : rest'.dropWhile isJsWs with _ | ⟨d, r2'⟩
          · rw [collapseRuns, collapseRunsAux_nil, htokrest, hr2c, wsTokensL_nil]
            calc (run ++ ' ' :: ([] : List Char)).rdropWhile isJsWs
                = (run ++ [' ']).rdropWhile isJsWs := rfl
              _ = run.rdropWhile isJsWs := List.rdropWhile_concat_pos _ _ ' ' (by decide)
              _ = run := rdropWhile_eq_self_of_all _ _ hrun_all
              _ = joinSp [run] := rfl
          · have hd : isJsWs d = false := dropWhile_head_false isJsWs hr2c
            have ihr2 : trimWsList (collapseRuns isJsWs ' ' (d :: r2')) =
                joinSp (wsTokensL (d :: r2')) := by
              rw [← hr2c]
              exact ih _ hr2len
            have hChead : collapseRuns isJsWs ' ' (d :: r2') =
                d :: collapseRunsAux isJsWs ' ' false r2' :=
              collapseRunsAux_cons_neg ' ' false r2' hd
            have hfront2 : (collapseRuns isJsWs ' ' (d :: r2')).dropWhile isJsWs =
                collapseRuns isJsWs ' ' (d :: r2') := by
              rw [hChead]
              simp [List.dropWhile_cons, hd]
            have ihr2' : (collapseRuns isJsWs ' ' (d :: r2')).rdropWhile isJsWs =
                joinSp (wsTokensL (d :: r2')) := by
              rw [← hfront2, ← trimWsList_eq_rdrop]
              exact ihr2
            have htok2 : wsTokensL (d :: r2') =
                (d :: r2'.takeWhile (fun x => !isJsWs x)) ::
                  wsTokensL (r2'.dropWhile (fun x => !isJsWs x)) := wsTokensL_cons_word hd
            have hne : (collapseRuns isJsWs ' ' (d :: r2')).rdropWhile isJsWs ≠ [] := by
              rw [ihr2', htok2]
              exact joinSp_ne_nil (by simp) _
            calc (run ++ ' ' :: collapseRuns isJsWs ' ' (d :: r2')).rdropWhile isJsWs
                = ((run ++ [' ']) ++ collapseRuns isJsWs ' ' (d :: r2')).rdropWhile isJsWs := by
                  simp
              _ = (run ++ [' ']) ++ (collapseRuns isJsWs ' ' (d :: r2')).rdropWhile isJsWs :=
                  rdropWhile_append_of_ne_nil _ _ _ hne
              _ = run ++ ' ' :: joinSp (wsTokensL (d :: r2')) := by
                  rw [ihr2']
                  simp
              _ = joinSp (run :: wsTokensL (d :: r2')) := by
                  rw [htok2, joinSp_cons_cons]
              _ = joinSp (run :: wsTokensL (w :: rest')) := by
                  rw [htokrest, hr2c]

/-- C6: for every input string, `cleanText` applies exactly the three
listed transformations: it collapses every whitespace run to a single space (so
the result is precisely the word runs of the input joined by single
spaces, second conjunct), applies the blank-line collapse (which, coming
after the whitespace collapse, is the identity: no newline survives the
first stage — first conjunct), and removes leading and trailing
whitespace (also part of the second conjunct: the joined words neither
start nor end with whitespace). -/
theorem cleanText_characterization (s : String) :
    collapseRuns isNlChar '\n' (collapseRuns isJsWs ' ' s.data) =
      collapseRuns isJsWs ' ' s.data ∧
    cleanText s = String.mk (joinSp (wsWords s)) := by
  constructor
  · exact nl_stage_id s.data
  · rw [cleanText, nl_stage_id s.data, clean_chars_eq_joinSp s.data.length s.data le_rfl]
    rfl

lemma removeF_clean (p : String → List (String × String) → Bool) (f : Forest) :
    cleanF p (removeF p f) = true := by
  induction f using removeF.induct p with
  | case1 => rfl
  | case2 ns s ih => simp [removeF, cleanF, cleanN, ih]
  | case3 ns tag attrs cs hp ih => simpa [removeF, hp] using ih
  | case4 ns tag attrs cs hp ih1 ih2 =>
    simp [removeF, hp, cleanF, cleanN, ih1, ih2]

lemma removeF_id_of_clean (p : String → List (String × String) → Bool) (f : Forest)
    (h : cleanF p f = true) : removeF p f = f := by
  induction f using removeF.induct p with
  | case1 => rfl
  | case2 ns s ih =>
    simp only [cleanF, cleanN, Bool.true_and] at h
    simp [removeF, ih h]
  | case3 ns tag attrs cs hp ih =>
    simp [cleanF, cleanN, hp] at h
  | case4 ns tag attrs cs hp ih1 ih2 =>
    simp only [cleanF, cleanN, Bool.and_eq_true] at h
    simp [removeF, hp, ih1 h.1.2, ih2 h.2]

lemma removeF_preserves_clean (p q : String → List (String × String) → Bool) (f : Forest)
    (h : cleanF p f = true) : cleanF p (removeF q f) = true := by
  induction f using removeF.induct q with
  | case1 => rfl
  | case2 ns s ih =>
    simp only [cleanF, cleanN, Bool.true_and] at h
    simp [removeF, cleanF, cleanN, ih h]
  | case3 ns tag attrs cs hq ih =>
    simp only [cleanF, cleanN, Bool.and_eq_true] at h
    simpa [removeF, hq] using ih h.2
  | case4 ns tag attrs cs hq ih1 ih2 =>
    simp only [cleanF, cleanN, Bool.and_eq_true] at h
    simp [removeF, hq, cleanF, cleanN, h.1.1, ih1 h.1.2, ih2 h.2]

lemma stripNoise_eq_removeAll (f : Forest) : stripNoise f = removeAll NOISE_SELECTORS f := rfl

lemma removeAll_preserves_clean (p : String → List (String × String) → Bool)
    (sels : List Sel) (f : Forest) (h : cleanF p f = true) :
    cleanF p (removeAll sels f) = true := by
  induction sels generalizing f with
  | nil => exact h
  | cons s rest ih => exact ih _ (removeF_preserves_clean p (matchesSel s) f h)

lemma removeAll_clean_mem (sels : List Sel) (sel : Sel) (hmem : sel ∈ sels) (f : Forest) :
    cleanF (matchesSel sel) (removeAll sels f) = true := by
  induction sels generalizing f with
  | nil => cases hmem
  | cons s rest ih =>
    rcases List.mem_cons.mp hmem with h | h
    · subst h
      exact removeAll_preserves_clean _ rest _ (removeF_clean _ f)
    · exact ih h _

lemma removeAll_id_of_clean (sels : List Sel) (f : Forest)
    (h : ∀ sel ∈ sels, cleanF (matchesSel sel) f = true) : removeAll sels f = f := by
  induction sels with
  | nil => rfl
  | cons s rest ih =>
    have h1 : removeF (matchesSel s) f = f :=
      removeF_id_of_clean _ f (h s (List.mem_cons_self s rest))
    show removeAll rest (removeF (matchesSel s) f) = f
    rw [h1]
    exact ih (fun sel hs => h sel (List.mem_cons_of_mem s hs))

lemma stripNoise_idem (f : Forest) : stripNoise (stripNoise f) = stripNoise f := by
  rw [stripNoise_eq_removeAll (stripNoise f)]
  exact removeAll_id_of_clean _ _ (fun sel hs => removeAll_clean_mem _ sel hs f)

/-- C9: content extraction is deterministic (it is a pure function of the
document) and idempotent: a second run of `extractMainContent` on the
working copy already mutated by the first run's noise removal
(`stripNoise doc`) produces byte-identical output to the first run. -/
theorem extractMainContent_idempotent (doc : Forest) :
    extractMainContent (stripNoise doc) = extractMainContent doc := by
  simp only [extractMainContent, stripNoise_idem]

/-- Longest-wins fold, generic form: the result of folding
"keep the new value when strictly longer" over a list. -/
lemma foldl_best_spec {α β : Type} (g : α → β) (f : β → Nat) (l : List α) (b0 : β) :
    f b0 ≤ f (l.foldl (fun acc x => if f acc < f (g x) then g x else acc) b0) ∧
    (∀ x ∈ l, f (g x) ≤ f (l.foldl (fun acc x => if f acc < f (g x) then g x else acc) b0)) ∧
    ((l.foldl (fun acc x => if f acc < f (g x) then g x else acc) b0) = b0 ∨
      ∃ pre x post, l = pre ++ x :: post ∧
        (l.foldl (fun acc x => if f acc < f (g x) then g x else acc) b0) = g x ∧
        f b0 < f (g x) ∧
        ∀ y ∈ pre, f (g y) < f (g x)) := by
  induction l generalizing b0 with
  | nil => exact ⟨le_rfl, by simp, Or.inl rfl⟩
  | cons a l ih =>
    by_cases ha : f b0 < f (g a)
    · have hstep : (a :: l).foldl (fun acc x => if f acc < f (g x) then g x else acc) b0 =
          l.foldl (fun acc x => if f acc < f (g x) then g x else acc) (g a) := by
        simp [List.foldl_cons, ha]
      obtain ⟨ih1, ih2, ih3⟩ := ih (g a)
      refine ⟨?_, ?_, ?_⟩
      · rw [hstep]
        omega
      · intro x hx
        rw [hstep]
        rcases List.mem_cons.mp hx with hx | hx
        · subst hx
          exact ih1
        · exact ih2 x hx
      · rw [hstep]
        rcases ih3 with h | ⟨pre, x, post, hsplit, hval, hlt, hpre⟩
        · exact Or.inr ⟨[], a, l, rfl, h, ha, by simp⟩
        · refine Or.inr ⟨a :: pre, x, post, by rw [hsplit]; simp, hval, by omega, ?_⟩
          intro y hy
          rcases List.mem_cons.mp hy with hy | hy
          · subst hy
            omega
          · exact hpre y hy
    · have hstep : (a :: l).foldl (fun acc x => if f acc < f (g x) then g x else acc) b0 =
          l.foldl (fun acc x => if f acc < f (g x) then g x else acc) b0 := by
        simp [List.foldl_cons, ha]
      obtain ⟨ih1, ih2, ih3⟩ := ih b0
      refine ⟨?_, ?_, ?_⟩
      · rw [hstep]
        exact ih1
      · intro x hx
        rw [hstep]
        rcases List.mem_cons.mp hx with hx | hx
        · subst hx
          omega
        · exact ih2 x hx
      · rw [hstep]
        rcases ih3 with h | ⟨pre, x, post, hsplit, hval, hlt, hpre⟩
        · exact Or.inl h
        · refine Or.inr ⟨a :: pre, x, post, by rw [hsplit]; simp, hval, hlt, ?_⟩
          intro y hy
          rcases List.mem_cons.mp hy with hy | hy
          · subst hy
            omega
          · exact hpre y hy

lemma selectorCascadeBest_eq_fold (d : Forest) :
    selectorCascadeBest d =
      (cascadeCandidates d).foldl
        (fun best c => if best.length < c.length then c else best) "" := by
  rw [selectorCascadeBest, cascadeCandidates, List.foldl_flatten]
  simp only [List.foldl_map]

/-- C4: across all matches of all locators the cascade keeps the single
longest cleaned candidate text — every candidate is at most as long as
the kept one, and a non-empty kept text occurs in the candidate list with
all earlier candidates strictly shorter (ties keep the first found) —
and whenever the kept candidate of the stripped document exceeds 1000
characters, `extractMainContent` returns it directly, without consulting
the paragraph or body fallbacks. -/
theorem selector_cascade_keeps_longest (d : Forest) :
    (∀ t ∈ cascadeCandidates d, t.length ≤ (selectorCascadeBest d).length) ∧
    (selectorCascadeBest d ≠ "" →
      ∃ pre post, cascadeCandidates d = pre ++ selectorCascadeBest d :: post ∧
        ∀ t ∈ pre, t.length < (selectorCascadeBest d).length) ∧
    (1000 < (selectorCascadeBest (stripNoise d)).length →
      extractMainContent d = selectorCascadeBest (stripNoise d)) := by
  obtain ⟨h1, h2, h3⟩ :=
    foldl_best_spec (fun t : String => t) String.length (cascadeCandidates d) ""
  rw [← selectorCascadeBest_eq_fold] at h1 h2 h3
  refine ⟨h2, ?_, ?_⟩
  · intro hne
    rcases h3 with h | ⟨pre, x, post, hsplit, hval, hlt, hpre⟩
    · exact absurd h hne
    · refine ⟨pre, post, by rw [hsplit, hval], ?_⟩
      intro t ht
      rw [hval]
      exact hpre t ht
  · intro hbig
    rw [extractMainContent, if_pos hbig]

set_option maxRecDepth 100000 in
theorem selector_cascade_keeps_longest_witness :
    1000 < (selectorCascadeBest (stripNoise docBigArticle)).length ∧
    extractMainContent docBigArticle = selectorCascadeBest (stripNoise docBigArticle) :=
  ⟨by decide, (selector_cascade_keeps_longest docBigArticle).2.2 (by decide)⟩

set_option maxRecDepth 100000 in
/-- C5 counterexample: on `docThreeParas` the claim's hypotheses hold —
no selector-cascade candidate (the best is empty, hence at most 1000
characters), and exactly three paragraphs whose trimmed texts exceed 20
characters — yet the extraction result is not the blank-line-separated
concatenation of the paragraph texts: the final `cleanText` pass
collapses the `"\n\n"` separators into single spaces, and indeed the
result contains no newline at all. -/
theorem paragraph_fallback_counterexample :
    selectorCascadeBest (stripNoise docThreeParas) = "" ∧
    ((queryF (matchesSel (Sel.tag "p")) (stripNoise docThreeParas)).map
      (fun pEl => (jsTrim (textNode pEl)).length)) = [40, 41, 40] ∧
    extractMainContent docThreeParas =
      "This is the first paragraph of the page. This is the second paragraph of the page. This is the third paragraph of the page." ∧
    extractMainContent docThreeParas ≠
      "This is the first paragraph of the page.\n\nThis is the second paragraph of the page.\n\nThis is the third paragraph of the page." ∧
    (extractMainContent docThreeParas).data.all (fun c => !(c == '\n')) = true := by
  refine ⟨by decide, by decide, by decide, by decide, by decide⟩

/-- C5 amended: when the cascade's best candidate is at most 1000
characters, the paragraph concatenation (trimmed paragraph texts over 20
characters, each followed by a blank line, in document order) is longer
than that candidate, and its cleaned form has at least 50 characters (so
the body fallback is skipped — "no larger candidate elsewhere"), the
extraction result equals the CLEANED concatenation: the blank-line
separators are collapsed to single spaces by `cleanText`. -/
theorem paragraph_fallback_cleaned (doc : Forest)
    (h1 : (selectorCascadeBest (stripNoise doc)).length ≤ 1000)
    (h2 : (selectorCascadeBest (stripNoise doc)).length <
      (paragraphContentOf (stripNoise doc)).length)
    (h3 : 50 ≤ (cleanText (paragraphContentOf (stripNoise doc))).length)
    (_h4 : 3 ≤ ((queryF (matchesSel (Sel.tag "p")) (stripNoise doc)).filter
      (fun pEl => decide (20 < (jsTrim (textNode pEl)).length))).length) :
    extractMainContent doc = cleanText (paragraphContentOf (stripNoise doc)) := by
  rw [extractMainContent, if_neg (by omega)]
  simp only
  rw [if_pos h2, if_neg (by omega)]

set_option maxRecDepth 100000 in
theorem paragraph_fallback_cleaned_witness :
    extractMainContent docThreeParas =
      cleanText (paragraphContentOf (stripNoise docThreeParas)) :=
  paragraph_fallback_cleaned docThreeParas (by decide) (by decide) (by decide) (by decide)

lemma scrapeLoop_zero (oracle : Nat → Except FetchError Forest) (url : String)
    (retries attempt : Nat) (st : LoopState) :
    scrapeLoop oracle url retries 0 attempt st = (loopExit url st, []) := by
  rw [scrapeLoop, loopExit]
  by_cases h : 0 < st.bestContent.length <;> simp [h]

lemma stepFail_error {oracle : Nat → Except FetchError Forest} {i : Nat} {e : FetchError}
    (url : String) (st : LoopState) (horacle : oracle i = .error e) :
    stepFail oracle url st i = { st with lastError := some (.fetchFail e) } := by
  rw [stepFail, horacle]

lemma stepFail_ok {oracle : Nat → Except FetchError Forest} {i : Nat} {doc : Forest}
    (url : String) (st : LoopState) (horacle : oracle i = .ok doc) :
    stepFail oracle url st i =
      { bestUpdate url doc st with
        lastError := some (.insufficientContent (extractMainContent doc).length) } := by
  rw [stepFail, horacle, bestUpdate]

lemma scrapeLoop_succ_error {oracle : Nat → Except FetchError Forest} {attempt : Nat}
    {e : FetchError} (url : String) (retries n : Nat) (st : LoopState)
    (horacle : oracle attempt = .error e) :
    scrapeLoop oracle url retries (n + 1) attempt st =
      ((scrapeLoop oracle url retries n (attempt + 1) (stepFail oracle url st attempt)).1,
       iterEvents retries attempt ++
         (scrapeLoop oracle url retries n (attempt + 1) (stepFail oracle url st attempt)).2) := by
  rw [scrapeLoop, horacle, stepFail_error url st horacle, iterEvents]

lemma scrapeLoop_succ_ok_big {oracle : Nat → Except FetchError Forest} {attempt : Nat}
    {doc : Forest} (url : String) (retries n : Nat) (st : LoopState)
    (horacle : oracle attempt = .ok doc)
    (hlen : 100 ≤ (extractMainContent doc).length) :
    scrapeLoop oracle url retries (n + 1) attempt st =
      ({ success := true, content := some (extractMainContent doc), error := none,
         metadata := some (extractMetadata doc url) }, [.fetchAttempt attempt]) := by
  rw [scrapeLoop, horacle]
  simp only [if_pos hlen]

lemma scrapeLoop_succ_ok_small_ret {oracle : Nat → Except FetchError Forest} {attempt : Nat}
    {doc : Forest} (url : String) (retries n : Nat) (st : LoopState)
    (horacle : oracle attempt = .ok doc)
    (hlen : (extractMainContent doc).length < 100)
    (hlast : attempt = retries)
    (hbest : 0 < (bestUpdate url doc st).bestContent.length) :
    scrapeLoop oracle url retries (n + 1) attempt st =
      ({ success := true, content := some (bestUpdate url doc st).bestContent, error := none,
         metadata := some (bestUpdate url doc st).bestMetadata }, [.fetchAttempt attempt]) := by
  rw [scrapeLoop, horacle]
  rw [bestUpdate] at hbest ⊢
  simp only [if_neg (by omega : ¬ (100 ≤ (extractMainContent doc).length))]
  rw [if_pos ⟨hlast, hbest⟩]

lemma scrapeLoop_succ_ok_small_cont {oracle : Nat → Except FetchError Forest} {attempt : Nat}
    {doc : Forest} (url : String) (retries n : Nat) (st : LoopState)
    (horacle : oracle attempt = .ok doc)
    (hlen : (extractMainContent doc).length < 100)
    (hcond : ¬ (attempt = retries ∧ 0 < (bestUpdate url doc st).bestContent.length)) :
    scrapeLoop oracle url retries (n + 1) attempt st =
      ((scrapeLoop oracle url retries n (attempt + 1) (stepFail oracle url st attempt)).1,
       iterEvents retries attempt ++
         (scrapeLoop oracle url retries n (attempt + 1) (stepFail oracle url st attempt)).2) := by
  rw [scrapeLoop, horacle]
  rw [bestUpdate] at hcond
  simp only [if_neg (by omega : ¬ (100 ≤ (extractMainContent doc).length))]
  rw [if_neg hcond, stepFail_ok url st horacle, bestUpdate, iterEvents]

lemma loopExit_pos (url : String) (st : LoopState) (h : 0 < st.bestContent.length) :
    loopExit url st =
      { success := true, content := some st.bestContent, error := none,
        metadata := some st.bestMetadata } := by
  rw [loopExit, if_pos h]

lemma loopExit_of_bestEq {st st' : LoopState} (url : String)
    (hb : st.bestContent = st'.bestContent) (hm : st.bestMetadata = st'.bestMetadata)
    (he : st.lastError = st'.lastError) : loopExit url st = loopExit url st' := by
  rw [loopExit, loopExit, hb, hm, he]

lemma loopExit_mk_pos (url : String) (e : Option LoopError) (b : String) (m : Metadata)
    (h : 0 < b.length) :
    loopExit url ⟨e, b, m⟩ =
      { success := true, content := some b, error := none, metadata := some m } := by
  rw [loopExit, if_pos h]

lemma loop_all_fail (oracle : Nat → Except FetchError Forest) (url : String) (retries : Nat) :
    ∀ (n t : Nat) (st : LoopState), 1 ≤ t → t + n = retries + 1 →
    (∀ i, t ≤ i → i ≤ retries → attemptFails oracle i) →
    scrapeLoop oracle url retries n t st =
      (loopExit url ((List.range' t n).foldl (stepFail oracle url) st),
       ((List.range' t n).map (iterEvents retries)).flatten) := by
  intro n
  induction n with
  | zero =>
    intro t st h1 h2 h3
    rw [scrapeLoop_zero]
    simp only [List.range'_zero, List.foldl_nil, List.map_nil, List.flatten_nil]
  | succ n ih =>
    intro t st h1 h2 h3
    have hfail := h3 t le_rfl (by omega)
    have hrange : List.range' t (n + 1) = t :: List.range' (t + 1) n := List.range'_succ t n 1
    rw [hrange]
    simp only [List.foldl_cons, List.map_cons, List.flatten_cons]
    cases horacle : oracle t with
    | error e =>
      rw [scrapeLoop_succ_error url retries n st horacle,
        ih (t + 1) _ (by omega) (by omega) (fun i hi1 hi2 => h3 i (by omega) hi2)]
    | ok doc =>
      have hlen : (extractMainContent doc).length < 100 := by
        have h := hfail
        rw [attemptFails, horacle] at h
        exact h
      by_cases hlast : t = retries
      · have hn0 : n = 0 := by omega
        subst hn0
        subst hlast
        by_cases hbest : 0 < (bestUpdate url doc st).bestContent.length
        · rw [scrapeLoop_succ_ok_small_ret url t 0 st horacle hlen rfl hbest,
            stepFail_ok url st horacle]
          simp only [List.range'_zero, List.foldl_nil, List.map_nil, List.flatten_nil,
            List.append_nil]
          rw [loopExit_mk_pos url _ _ _ hbest, iterEvents, if_neg (Nat.lt_irrefl t)]
        · rw [scrapeLoop_succ_ok_small_cont url t 0 st horacle hlen
            (fun hcontra => hbest hcontra.2), scrapeLoop_zero]
          simp only [List.range'_zero, List.foldl_nil, List.map_nil, List.flatten_nil,
            List.append_nil]
      · rw [scrapeLoop_succ_ok_small_cont url retries n st horacle hlen
          (fun hcontra => hlast hcontra.1),
          ih (t + 1) _ (by omega) (by omega) (fun i hi1 hi2 => h3 i (by omega) hi2)]

lemma loop_success (oracle : Nat → Except FetchError Forest) (url : String) (retries : Nat)
    (a : Nat) (doc : Forest) (horacle : oracle a = .ok doc)
    (hlen : 100 ≤ (extractMainContent doc).length) :
    ∀ (n t : Nat) (st : LoopState), 1 ≤ t → t + n = retries + 1 → t ≤ a → a ≤ retries →
    (∀ i, t ≤ i → i < a → attemptFails oracle i) →
    scrapeLoop oracle url retries n t st =
      ({ success := true, content := some (extractMainContent doc), error := none,
         metadata := some (extractMetadata doc url) },
       ((List.range' t (a - t)).map (iterEvents retries)).flatten ++ [.fetchAttempt a]) := by
  intro n
  induction n with
  | zero =>
    intro t st h1 h2 hta har h3
    omega
  | succ n ih =>
    intro t st h1 h2 hta har h3
    by_cases hteq : t = a
    · subst hteq
      rw [scrapeLoop_succ_ok_big url retries n st horacle hlen]
      simp
    · have htlt : t < a := by omega
      have hfail := h3 t le_rfl htlt
      have hrange : List.range' t (a - t) = t :: List.range' (t + 1) (a - (t + 1)) := by
        have : a - t = (a - (t + 1)) + 1 := by omega
        rw [this, List.range'_succ]
      rw [hrange]
      simp only [List.map_cons, List.flatten_cons, List.append_assoc]
      cases horacle2 : oracle t with
      | error e =>
        rw [scrapeLoop_succ_error url retries n st horacle2,
          ih (t + 1) _ (by omega) (by omega) (by omega) har
            (fun i hi1 hi2 => h3 i (by omega) hi2)]
      | ok doc2 =>
        have hlen2 : (extractMainContent doc2).length < 100 := by
          have h := hfail
          rw [attemptFails, horacle2] at h
          exact h
        rw [scrapeLoop_succ_ok_small_cont url retries n st horacle2 hlen2
          (fun hcontra => by omega),
          ih (t + 1) _ (by omega) (by omega) (by omega) har
            (fun i hi1 hi2 => h3 i (by omega) hi2)]

lemma isValidUrl_empty : isValidUrl "" = false := by decide

lemma scrapeBlogText_valid (oracle : Nat → Except FetchError Forest) (url : String)
    (options : ScrapingOptions) (hvalid : isValidUrl url = true) :
    scrapeBlogText oracle url options =
      scrapeLoop oracle url (finalRetries options) (finalRetries options) 1
        (initialState url) := by
  have h0 : url ≠ "" := by
    intro h
    subst h
    rw [isValidUrl_empty] at hvalid
    cases hvalid
  rw [scrapeBlogText]
  simp only [hvalid, Bool.not_true, Bool.or_false, beq_iff_eq, h0, if_false,
    Bool.false_or]

lemma fetch_not_mem_iterEvents {retries i j : Nat} (hne : j ≠ i) :
    ScrapeEvent.fetchAttempt j ∉ iterEvents retries i := by
  intro hmem
  rw [iterEvents] at hmem
  rcases List.mem_cons.mp hmem with h | h
  · exact hne (by injection h)
  · by_cases hlt : i < retries
    · rw [if_pos hlt] at h
      simp at h
    · rw [if_neg hlt] at h
      cases h

lemma fetch_mem_flatten {retries j : Nat} {l : List Nat}
    (h : ScrapeEvent.fetchAttempt j ∈ (l.map (iterEvents retries)).flatten) : j ∈ l := by
  rw [List.mem_flatten] at h
  obtain ⟨evl, hevl, hj⟩ := h
  rw [List.mem_map] at hevl
  obtain ⟨i, hil, hi⟩ := hevl
  subst hi
  by_cases hne : j = i
  · subst hne
    exact hil
  · exact absurd hj (fetch_not_mem_iterEvents hne)

/-- C2: if the retry loop reaches attempt `a` (every earlier attempt
failed), attempt `a`'s fetch succeeds and the extracted content has at
least 100 characters, then `scrapeBlogText` returns success immediately
with exactly that attempt's content and metadata, and no attempt beyond
`a` is performed (no fetch event with a larger attempt number occurs). -/
theorem sufficient_attempt_returns_immediately
    (oracle : Nat → Except FetchError Forest) (url : String) (options : ScrapingOptions)
    (a : Nat) (doc : Forest)
    (hvalid : isValidUrl url = true)
    (h1a : 1 ≤ a) (har : a ≤ finalRetries options)
    (hprev : ∀ i, 1 ≤ i → i < a → attemptFails oracle i)
    (horacle : oracle a = .ok doc)
    (hlen : 100 ≤ (extractMainContent doc).length) :
    (scrapeBlogText oracle url options).1 =
      { success := true, content := some (extractMainContent doc), error := none,
        metadata := some (extractMetadata doc url) } ∧
    ∀ j, a < j → ScrapeEvent.fetchAttempt j ∉ (scrapeBlogText oracle url options).2 := by
  rw [scrapeBlogText_valid oracle url options hvalid]
  rw [loop_success oracle url (finalRetries options) a doc horacle hlen
    (finalRetries options) 1 (initialState url) le_rfl (by omega) h1a har
    (fun i hi1 hi2 => hprev i hi1 hi2)]
  refine ⟨rfl, ?_⟩
  intro j hj hmem
  rcases List.mem_append.mp hmem with h | h
  · have := fetch_mem_flatten h
    rw [List.mem_range'_1] at this
    omega
  · rcases List.mem_singleton.mp h with h
    injection h with h
    omega

lemma attemptFails_of_error {oracle : Nat → Except FetchError Forest} {i : Nat}
    {e : FetchError} (h : oracle i = .error e) : attemptFails oracle i := by
  rw [attemptFails, h]
  trivial

lemma attemptFails_of_ok {oracle : Nat → Except FetchError Forest} {i : Nat}
    {d : Forest} (h : oracle i = .ok d) (hlen : (extractMainContent d).length < 100) :
    attemptFails oracle i := by
  rw [attemptFails, h]
  exact hlen

set_option maxRecDepth 40000 in
theorem sufficient_attempt_returns_immediately_witness :
    (scrapeBlogText oracleC2 "http://example.com" noOptions).1 =
      { success := true, content := some (extractMainContent docHundred), error := none,
        metadata := some (extractMetadata docHundred "http://example.com") } ∧
    ∀ j, 2 < j →
      ScrapeEvent.fetchAttempt j ∉ (scrapeBlogText oracleC2 "http://example.com" noOptions).2 :=
  sufficient_attempt_returns_immediately oracleC2 "http://example.com" noOptions 2 docHundred
    (by decide) (by decide) (by decide)
    (fun i hi1 hi2 => by
      have : i = 1 := by omega
      subst this
      exact attemptFails_of_error (rfl : oracleC2 1 = .error .etimedout))
    rfl (by decide)

set_option maxRecDepth 80000 in
/-- C8: (1) whenever the loop processes a failing attempt `t` with further
attempts remaining, the events of that iteration are exactly the fetch
followed by a backoff sleep of `min (1000 * 2 ^ (t - 1)) 5000`
milliseconds before the next attempt runs; (2) the final attempt never
sleeps: from the last attempt on, the only event is its fetch; (3) in the
concrete scenario — failures on attempts 1 and 2 and a ≥100-character
success on attempt 3 with the default `retries = 3` — the whole trace is
fetch 1, sleep 1000 ms, fetch 2, sleep 2000 ms, fetch 3, and the result
uses attempt 3's content. -/
theorem backoff_delay_formula :
    (∀ (oracle : Nat → Except FetchError Forest) (url : String) (retries n t : Nat)
      (st : LoopState), t < retries → attemptFails oracle t →
      scrapeLoop oracle url retries (n + 1) t st =
        ((scrapeLoop oracle url retries n (t + 1) (stepFail oracle url st t)).1,
         .fetchAttempt t :: .backoffSleep (min (1000 * 2 ^ (t - 1)) 5000) ::
           (scrapeLoop oracle url retries n (t + 1) (stepFail oracle url st t)).2)) ∧
    (∀ (oracle : Nat → Except FetchError Forest) (url : String) (retries : Nat)
      (st : LoopState),
      (scrapeLoop oracle url retries 1 retries st).2 = [.fetchAttempt retries]) ∧
    scrapeBlogText oracleC8 "http://example.com" noOptions =
      ({ success := true, content := some (extractMainContent docHundred), error := none,
         metadata := some (extractMetadata docHundred "http://example.com") },
       [.fetchAttempt 1, .backoffSleep 1000, .fetchAttempt 2, .backoffSleep 2000,
        .fetchAttempt 3]) := by
  refine ⟨?_, ?_, ?_⟩
  · intro oracle url retries n t st ht hfail
    cases horacle : oracle t with
    | error e =>
      rw [scrapeLoop_succ_error url retries n st horacle, iterEvents, if_pos ht]
      rfl
    | ok doc =>
      have hlen : (extractMainContent doc).length < 100 := by
        rw [attemptFails, horacle] at hfail
        exact hfail
      rw [scrapeLoop_succ_ok_small_cont url retries n st horacle hlen
        (fun hcontra => by omega), iterEvents, if_pos ht]
      rfl
  · intro oracle url retries st
    cases horacle : oracle retries with
    | error e =>
      rw [scrapeLoop_succ_error url retries 0 st horacle, scrapeLoop_zero, iterEvents,
        if_neg (Nat.lt_irrefl retries)]
      rfl
    | ok doc =>
      by_cases hlen : 100 ≤ (extractMainContent doc).length
      · rw [scrapeLoop_succ_ok_big url retries 0 st horacle hlen]
      · by_cases hbest : 0 < (bestUpdate url doc st).bestContent.length
        · rw [scrapeLoop_succ_ok_small_ret url retries 0 st horacle (by omega) rfl hbest]
        · rw [scrapeLoop_succ_ok_small_cont url retries 0 st horacle (by omega)
            (fun hcontra => hbest hcontra.2), scrapeLoop_zero, iterEvents,
            if_neg (Nat.lt_irrefl retries)]
          rfl
  · decide

theorem backoff_delay_formula_witness :
    scrapeLoop oracleC8 "http://example.com" 3 (1 + 1) 1 (initialState "http://example.com") =
      ((scrapeLoop oracleC8 "http://example.com" 3 1 2
          (stepFail oracleC8 "http://example.com" (initialState "http://example.com") 1)).1,
       .fetchAttempt 1 :: .backoffSleep (min (1000 * 2 ^ (1 - 1)) 5000) ::
         (scrapeLoop oracleC8 "http://example.com" 3 1 2
           (stepFail oracleC8 "http://example.com" (initialState "http://example.com") 1)).2) :=
  backoff_delay_formula.1 oracleC8 "http://example.com" 3 1 1
    (initialState "http://example.com") (by decide)
    (attemptFails_of_error (rfl : oracleC8 1 = .error .etimedout))

lemma loop_failure_meta (oracle : Nat → Except FetchError Forest) (url : String)
    (retries : Nat) : ∀ (n t : Nat) (st : LoopState),
    (scrapeLoop oracle url retries n t st).1.success = false →
    (scrapeLoop oracle url retries n t st).1.metadata =
      some { title := none, description := none, url := url } := by
  intro n
  induction n with
  | zero =>
    intro t st h
    rw [scrapeLoop_zero] at h ⊢
    rw [loopExit] at h ⊢
    by_cases hb : 0 < st.bestContent.length
    · rw [if_pos hb] at h
      cases h
    · rw [if_neg hb]
  | succ n ih =>
    intro t st h
    cases horacle : oracle t with
    | error e =>
      rw [scrapeLoop_succ_error url retries n st horacle] at h ⊢
      exact ih (t + 1) (stepFail oracle url st t) h
    | ok doc =>
      by_cases hlen : 100 ≤ (extractMainContent doc).length
      · rw [scrapeLoop_succ_ok_big url retries n st horacle hlen] at h
        cases h
      · by_cases hcond : t = retries ∧ 0 < (bestUpdate url doc st).bestContent.length
        · rw [scrapeLoop_succ_ok_small_ret url retries n st horacle (by omega) hcond.1
            hcond.2] at h
          cases h
        · rw [scrapeLoop_succ_ok_small_cont url retries n st horacle (by omega) hcond] at h ⊢
          exact ih (t + 1) (stepFail oracle url st t) h

/-- C7 counterexample: on an invalid URL the failure result carries NO
metadata at all — lines 213-216 return only `success` and `error`. -/
theorem validation_failure_metadata_absent :
    (scrapeBlogText (fun _ => .error .etimedout) "not a url" noOptions).1.success = false ∧
    (scrapeBlogText (fun _ => .error .etimedout) "not a url" noOptions).1.metadata = none := by
  refine ⟨by decide, by decide⟩

/-- C7 amended: after the retry loop has actually run (valid URL, at
least one attempt), every failure result carries metadata whose `url`
field echoes the input URL; on a validation failure, by contrast, the
result has no metadata (see the counterexample). -/
theorem failure_metadata_echoes_url (oracle : Nat → Except FetchError Forest)
    (url : String) (options : ScrapingOptions)
    (hvalid : isValidUrl url = true) (_hr : 1 ≤ finalRetries options)
    (hfail : (scrapeBlogText oracle url options).1.success = false) :
    (scrapeBlogText oracle url options).1.metadata =
      some { title := none, description := none, url := url } := by
  rw [scrapeBlogText_valid oracle url options hvalid] at hfail ⊢
  exact loop_failure_meta oracle url (finalRetries options) (finalRetries options) 1
    (initialState url) hfail

theorem failure_metadata_echoes_url_witness :
    (scrapeBlogText oracleAllTimeout "http://example.com" noOptions).1.metadata =
      some { title := none, description := none, url := "http://example.com" } :=
  failure_metadata_echoes_url oracleAllTimeout "http://example.com" noOptions
    (by decide) (by decide) (by decide)

/-! ### Exhausted attempts: best-effort accumulation (claim C3) -/
set_option allowUnsafeReducibility true in
attribute [irreducible] extractMainContent extractMetadata

lemma bestUpdate_lt {d : Forest} (url : String) (st : LoopState)
    (h : st.bestContent.length < (extractMainContent d).length) :
    bestUpdate url d st =
      { st with bestContent := extractMainContent d, bestMetadata := extractMetadata d url } := by
  rw [bestUpdate, if_pos h]

lemma bestUpdate_ge {d : Forest} (url : String) (st : LoopState)
    (h : ¬ st.bestContent.length < (extractMainContent d).length) :
    bestUpdate url d st = st := by
  rw [bestUpdate, if_neg h]

lemma stepFail_best_error {oracle : Nat → Except FetchError Forest} {i : Nat} {e : FetchError}
    (url : String) (st : LoopState) (horacle : oracle i = .error e) :
    (stepFail oracle url st i).bestContent = st.bestContent ∧
    (stepFail oracle url st i).bestMetadata = st.bestMetadata := by
  rw [stepFail_error url st horacle]
  dsimp only
  exact ⟨rfl, rfl⟩

lemma stepFail_best_ok_lt {oracle : Nat → Except FetchError Forest} {i : Nat} {d : Forest}
    (url : String) (st : LoopState) (horacle : oracle i = .ok d)
    (h : st.bestContent.length < (extractMainContent d).length) :
    (stepFail oracle url st i).bestContent = extractMainContent d ∧
    (stepFail oracle url st i).bestMetadata = extractMetadata d url := by
  rw [stepFail_ok url st horacle, bestUpdate_lt url st h]
  dsimp only
  exact ⟨rfl, rfl⟩

lemma stepFail_best_ok_ge {oracle : Nat → Except FetchError Forest} {i : Nat} {d : Forest}
    (url : String) (st : LoopState) (horacle : oracle i = .ok d)
    (h : ¬ st.bestContent.length < (extractMainContent d).length) :
    (stepFail oracle url st i).bestContent = st.bestContent ∧
    (stepFail oracle url st i).bestMetadata = st.bestMetadata := by
  rw [stepFail_ok url st horacle, bestUpdate_ge url st h]
  dsimp only
  exact ⟨rfl, rfl⟩

lemma stepFail_lastError (oracle : Nat → Except FetchError Forest) (url : String)
    (st : LoopState) (i : Nat) :
    (stepFail oracle url st i).lastError = some (lastErrOf oracle i) := by
  cases horacle : oracle i with
  | error e => rw [stepFail_error url st horacle, lastErrOf, horacle]
  | ok d => rw [stepFail_ok url st horacle, lastErrOf, horacle]

lemma stepFail_fold_lastError (oracle : Nat → Except FetchError Forest) (url : String)
    (l : List Nat) (st : LoopState) (a : Nat) :
    ((l ++ [a]).foldl (stepFail oracle url) st).lastError = some (lastErrOf oracle a) := by
  rw [List.foldl_append, List.foldl_cons, List.foldl_nil, stepFail_lastError]

/-- Behaviour of the best-so-far tracking across a list of failing
attempts: the final best is at least the initial best and at least every
successful attempt's content length; and either it is unchanged, or it is
exactly the content/metadata of some successful attempt `a`, strictly
longer than the initial best and strictly longer than every successful
attempt before `a`. -/
lemma stepFail_fold_spec (oracle : Nat → Except FetchError Forest) (url : String) :
    ∀ (l : List Nat) (st : LoopState),
    (st.bestContent.length ≤ (l.foldl (stepFail oracle url) st).bestContent.length) ∧
    (∀ i ∈ l, ∀ d, oracle i = .ok d →
      (extractMainContent d).length ≤ (l.foldl (stepFail oracle url) st).bestContent.length) ∧
    (((l.foldl (stepFail oracle url) st).bestContent = st.bestContent ∧
      (l.foldl (stepFail oracle url) st).bestMetadata = st.bestMetadata) ∨
      ∃ pre a post d, l = pre ++ a :: post ∧ oracle a = .ok d ∧
        (l.foldl (stepFail oracle url) st).bestContent = extractMainContent d ∧
        (l.foldl (stepFail oracle url) st).bestMetadata = extractMetadata d url ∧
        st.bestContent.length < (extractMainContent d).length ∧
        (∀ j ∈ pre, ∀ e, oracle j = .ok e →
          (extractMainContent e).length < (extractMainContent d).length)) := by
  intro l
  induction l with
  | nil => exact fun st => ⟨le_rfl, by simp, Or.inl ⟨rfl, rfl⟩⟩
  | cons i l ih =>
    intro st
    obtain ⟨ih1, ih2, ih3⟩ := ih (stepFail oracle url st i)
    rw [List.foldl_cons]
    cases horacle : oracle i with
    | error e =>
      obtain ⟨hbe, hme⟩ := stepFail_best_error url st horacle
      refine ⟨by rw [hbe] at ih1; exact ih1, ?_, ?_⟩
      · intro j hj d hd
        rcases List.mem_cons.mp hj with hj | hj
        · subst hj
          rw [horacle] at hd
          cases hd
        · exact ih2 j hj d hd
      · rcases ih3 with ⟨hA1, hA2⟩ | ⟨pre, a, post, dd, hsplit, hok, hB1, hB2, hB3, hB4⟩
        · exact Or.inl ⟨by rw [hA1, hbe], by rw [hA2, hme]⟩
        · refine Or.inr ⟨i :: pre, a, post, dd, by rw [hsplit]; rfl, hok, hB1, hB2,
            by rw [hbe] at hB3; exact hB3, ?_⟩
          intro j hj e he
          rcases List.mem_cons.mp hj with hj | hj
          · subst hj
            rw [horacle] at he
            cases he
          · exact hB4 j hj e he
    | ok d0 =>
      by_cases hup : st.bestContent.length < (extractMainContent d0).length
      · obtain ⟨hbe, hme⟩ := stepFail_best_ok_lt url st horacle hup
        refine ⟨by rw [hbe] at ih1; exact le_trans (le_of_lt hup) ih1, ?_, ?_⟩
        · intro j hj d hd
          rcases List.mem_cons.mp hj with hj | hj
          · subst hj
            rw [horacle] at hd
            injection hd with hd
            subst hd
            rw [hbe] at ih1
            exact ih1
          · exact ih2 j hj d hd
        · rcases ih3 with ⟨hA1, hA2⟩ | ⟨pre, a, post, dd, hsplit, hok, hB1, hB2, hB3, hB4⟩
          · refine Or.inr ⟨[], i, l, d0, rfl, horacle, by rw [hA1, hbe], by rw [hA2, hme],
              hup, by simp⟩
          · refine Or.inr ⟨i :: pre, a, post, dd, by rw [hsplit]; rfl, hok, hB1, hB2,
              by rw [hbe] at hB3; exact lt_trans hup hB3, ?_⟩
            intro j hj e he
            rcases List.mem_cons.mp hj with hj | hj
            · subst hj
              rw [horacle] at he
              injection he with he
              subst he
              rw [hbe] at hB3
              exact hB3
            · exact hB4 j hj e he
      · obtain ⟨hbe, hme⟩ := stepFail_best_ok_ge url st horacle hup
        refine ⟨by rw [hbe] at ih1; exact ih1, ?_, ?_⟩
        · intro j hj d hd
          rcases List.mem_cons.mp hj with hj | hj
          · subst hj
            rw [horacle] at hd
            injection hd with hd
            subst hd
            rw [hbe] at ih1
            exact le_trans (Nat.le_of_not_lt hup) ih1
          · exact ih2 j hj d hd
        · rcases ih3 with ⟨hA1, hA2⟩ | ⟨pre, a, post, dd, hsplit, hok, hB1, hB2, hB3, hB4⟩
          · exact Or.inl ⟨by rw [hA1, hbe], by rw [hA2, hme]⟩
          · refine Or.inr ⟨i :: pre, a, post, dd, by rw [hsplit]; rfl, hok, hB1, hB2,
              by rw [hbe] at hB3; exact hB3, ?_⟩
            intro j hj e he
            rcases List.mem_cons.mp hj with hj | hj
            · subst hj
              rw [horacle] at he
              injection he with he
              subst he
              rw [hbe] at hB3
              exact lt_of_le_of_lt (Nat.le_of_not_lt hup) hB3
            · exact hB4 j hj e he

lemma loopExit_neg (url : String) (st : LoopState) (hb : ¬ 0 < st.bestContent.length)
    (err : LoopError) (he : st.lastError = some err) :
    loopExit url st =
      { success := false, content := none, error := some (loopErrorMessage err),
        metadata := some { title := none, description := none, url := url } } := by
  rw [loopExit, if_neg hb, he]

lemma length_pos_of_ne_empty : ∀ {s : String}, s ≠ "" → 0 < s.length := by
  intro s h
  obtain ⟨d⟩ := s
  cases d with
  | nil => exact absurd rfl h
  | cons c cs => exact Nat.succ_pos cs.length

/-- C3: with a valid URL and every attempt failing (fetch error or
content below the 100-character threshold), `scrapeBlogText` exhausts all
attempts and then: if some attempt produced non-empty content, it returns
success with the content and metadata of a successful attempt that is at
least as long as every attempt's content and strictly longer than every
earlier attempt's content (the best-so-far updates only on strictly
greater length, so the earliest attempt wins ties); if no attempt ever
produced content, it returns failure with the message derived from the
last attempt's classified error and metadata carrying only the URL. -/
theorem exhausted_attempts_best_effort (oracle : Nat → Except FetchError Forest)
    (url : String) (options : ScrapingOptions)
    (hvalid : isValidUrl url = true)
    (hr : 1 ≤ finalRetries options)
    (hall : ∀ i, 1 ≤ i → i ≤ finalRetries options → attemptFails oracle i) :
    ((∃ i, 1 ≤ i ∧ i ≤ finalRetries options ∧ ∃ d, oracle i = .ok d ∧
        extractMainContent d ≠ "") →
      ∃ a d, 1 ≤ a ∧ a ≤ finalRetries options ∧ oracle a = .ok d ∧
        (scrapeBlogText oracle url options).1 =
          { success := true, content := some (extractMainContent d), error := none,
            metadata := some (extractMetadata d url) } ∧
        (∀ j, 1 ≤ j → j ≤ finalRetries options → ∀ e, oracle j = .ok e →
          (extractMainContent e).length ≤ (extractMainContent d).length) ∧
        (∀ j, 1 ≤ j → j < a → ∀ e, oracle j = .ok e →
          (extractMainContent e).length < (extractMainContent d).length)) ∧
    ((∀ i, 1 ≤ i → i ≤ finalRetries options → ∀ d, oracle i = .ok d →
        extractMainContent d = "") →
      (scrapeBlogText oracle url options).1 =
        { success := false, content := none,
          error := some (loopErrorMessage (lastErrOf oracle (finalRetries options))),
          metadata := some { title := none, description := none, url := url } }) := by
  have hloop := loop_all_fail oracle url (finalRetries options) (finalRetries options) 1
    (initialState url) le_rfl (by omega) (fun i hi1 hi2 => hall i hi1 hi2)
  rw [scrapeBlogText_valid oracle url options hvalid, hloop]
  obtain ⟨hs1, hs2, hs3⟩ :=
    stepFail_fold_spec oracle url (List.range' 1 (finalRetries options)) (initialState url)
  have hpair := List.pairwise_lt_range' 1 (finalRetries options)
  constructor
  · rintro ⟨i0, hi1, hi2, d0, hok0, hne0⟩
    have hmem0 : i0 ∈ List.range' 1 (finalRetries options) :=
      List.mem_range'_1.mpr ⟨hi1, by omega⟩
    have hlen0 : 0 < (extractMainContent d0).length := length_pos_of_ne_empty hne0
    have hFpos : 0 <
        ((List.range' 1 (finalRetries options)).foldl (stepFail oracle url)
          (initialState url)).bestContent.length :=
      lt_of_lt_of_le hlen0 (hs2 i0 hmem0 d0 hok0)
    rcases hs3 with ⟨hA1, _⟩ | ⟨pre, a, post, dd, hsplit, hok, hB1, hB2, hB3, hB4⟩
    · rw [hA1, show (initialState url).bestContent = "" from rfl] at hFpos
      exact absurd hFpos (by decide)
    · have hamem : a ∈ List.range' 1 (finalRetries options) := by
        rw [hsplit]
        exact List.mem_append_right pre (List.mem_cons_self a post)
      have habounds := List.mem_range'_1.mp hamem
      refine ⟨a, dd, habounds.1, by omega, hok, ?_, ?_, ?_⟩
      · rw [loopExit_pos url _ hFpos, hB1, hB2]
      · intro j hj1 hj2 e he
        have hjmem : j ∈ List.range' 1 (finalRetries options) :=
          List.mem_range'_1.mpr ⟨hj1, by omega⟩
        have := hs2 j hjmem e he
        rw [hB1] at this
        exact this
      · intro j hj1 hja e he
        have hjmem : j ∈ List.range' 1 (finalRetries options) :=
          List.mem_range'_1.mpr ⟨hj1, by omega⟩
        rw [hsplit] at hjmem hpair
        have hjpre : j ∈ pre := by
          rcases List.mem_append.mp hjmem with h | h
          · exact h
          · rcases List.mem_cons.mp h with h | h
            · omega
            · exfalso
              have := (List.pairwise_append.mp hpair).2.1
              have halt := (List.pairwise_cons.mp this).1 j h
              omega
        exact hB4 j hjpre e he
  · intro hallempty
    have hFzero :
        ((List.range' 1 (finalRetries options)).foldl (stepFail oracle url)
          (initialState url)).bestContent = "" := by
      rcases hs3 with ⟨hA1, _⟩ | ⟨pre, a, post, dd, hsplit, hok, hB1, hB2, hB3, hB4⟩
      · rw [hA1]
        rfl
      · exfalso
        have hamem : a ∈ List.range' 1 (finalRetries options) := by
          rw [hsplit]
          exact List.mem_append_right pre (List.mem_cons_self a post)
        have habounds := List.mem_range'_1.mp hamem
        have hempty := hallempty a habounds.1 (by omega) dd hok
        rw [hempty, show (initialState url).bestContent = "" from rfl] at hB3
        exact Nat.lt_irrefl _ hB3
    obtain ⟨m, hm⟩ : ∃ m, finalRetries options = m + 1 := ⟨finalRetries options - 1, by omega⟩
    have h1m : 1 + 1 * m = m + 1 := by omega
    have hconcat : List.range' 1 (finalRetries options) = List.range' 1 m ++ [m + 1] := by
      rw [hm, List.range'_concat, h1m]
    have hlast :
        ((List.range' 1 (finalRetries options)).foldl (stepFail oracle url)
          (initialState url)).lastError = some (lastErrOf oracle (finalRetries options)) := by
      rw [hconcat, stepFail_fold_lastError, hm]
    rw [loopExit_neg url _ (by rw [hFzero]; decide) _ hlast]

set_option allowUnsafeReducibility true in
attribute [semireducible] extractMainContent extractMetadata

set_option maxRecDepth 40000 in
theorem exhausted_attempts_best_effort_witness :
    ∃ a d, 1 ≤ a ∧ a ≤ finalRetries noOptions ∧ oracleC3 a = .ok d ∧
      (scrapeBlogText oracleC3 "http://example.com" noOptions).1 =
        { success := true, content := some (extractMainContent d), error := none,
          metadata := some (extractMetadata d "http://example.com") } ∧
      (∀ j, 1 ≤ j → j ≤ finalRetries noOptions → ∀ e, oracleC3 j = .ok e →
        (extractMainContent e).length ≤ (extractMainContent d).length) ∧
      (∀ j, 1 ≤ j → j < a → ∀ e, oracleC3 j = .ok e →
        (extractMainContent e).length < (extractMainContent d).length) :=
  (exhausted_attempts_best_effort oracleC3 "http://example.com" noOptions (by decide) (by decide)
    (fun i h1 h2 => by
      by_cases hi : i = 2
      · subst hi
        exact attemptFails_of_ok (rfl : oracleC3 2 = .ok docSmall) (by decide)
      · exact attemptFails_of_error
          (show oracleC3 i = .error .etimedout from by simp [oracleC3, hi]))).1
    ⟨2, by decide, by decide, docSmall, rfl, by decide⟩

/-- C10: `scrapeWithFallback` never returns a failure result; whenever
the underlying `scrapeBlogText` fails (including on invalid URLs) it
returns success with `generateSampleContent url`, which is one of the
three fixed sample texts, selected deterministically by the URL hash
(`generateSampleContent` is a pure function of the URL, so the same URL
always yields the same sample). -/
theorem fallback_never_fails (oracle : Nat → Except FetchError Forest) (url : String) :
    (scrapeWithFallback oracle url).success = true ∧
    ((scrapeBlogText oracle url noOptions).1.success = false →
      (scrapeWithFallback oracle url).content = some (generateSampleContent url)) ∧
    generateSampleContent url ∈ sampleTexts := by
  refine ⟨?_, ?_, ?_⟩
  · by_cases hs : (scrapeBlogText oracle url noOptions).1.success = false
    · rw [scrapeWithFallback, if_pos hs]
    · rw [scrapeWithFallback, if_neg hs]
      rcases Bool.eq_false_or_eq_true ((scrapeBlogText oracle url noOptions).1.success) with
        h | h
      · exact h
      · exact absurd h hs
  · intro hs
    rw [scrapeWithFallback, if_pos hs]
  · have hlt : (jsHash url).natAbs % sampleTexts.length < sampleTexts.length :=
      Nat.mod_lt _ (by decide)
    rw [generateSampleContent, List.getD_eq_getElem _ _ hlt]
    exact List.getElem_mem hlt

theorem fallback_never_fails_witness :
    (scrapeWithFallback oracleAllTimeout "not a url").success = true ∧
    (scrapeWithFallback oracleAllTimeout "not a url").content =
      some (generateSampleContent "not a url") :=
  ⟨(fallback_never_fails oracleAllTimeout "not a url").1,
   (fallback_never_fails oracleAllTimeout "not a url").2.1 (by decide)⟩
